import Mathlib

set_option maxHeartbeats 1600000
set_option maxRecDepth 4096

/-!
# Verification of the Valine comment-encryption extension

Shallow embedding of `src/js/valine-encryption.js` (the "Enhanced Valine
Crypto Extension", the second IIFE of the file) together with the PBKDF2
key-derivation helper of the first IIFE.

Modelling conventions:

* A JavaScript string is a list of UTF-16 code units, `JStr := List Nat`
  (every unit produced by a real JS engine is `< 0x10000`).
* Byte buffers (`Uint8Array`, `ArrayBuffer`) are `List Nat` with entries
  `< 256`.
* `window.crypto.getRandomValues` is modelled by an explicit entropy source
  `rand : Nat → Nat`; each call site receives its own source.
* `Math.random().toString(36).substring(2, 8)` (the random suffix used by the
  fallback path when a global salt is configured) is modelled by an explicit
  string parameter.
* The ambient globals `window.VALINE_CRYPTO_SALT` (an `Option JStr`),
  the configured salt length and the configured PBKDF2 iteration count
  (`Option Nat`, defaulted to 100000 exactly as in the source) are explicit
  parameters.
* Fallible host operations (`btoa`/`atob` throwing on bad input,
  `encodeURIComponent`/`decodeURIComponent` throwing `URIError`, WebCrypto
  `decrypt` rejecting on tag mismatch) are `Option`-valued; `none` is the
  thrown exception, and JS `null` results are also `none` where a function
  returns `string | null`.
* WebCrypto PBKDF2 / AES-GCM are host primitives, not repository code; they
  are modelled by concrete executable stand-ins (`pbkdf2Model`,
  `encryptGCM`/`decryptGCM`) that expose exactly the structure the source
  relies on: derivation is a deterministic total function of
  (password bytes, salt bytes, iteration count) producing 32 bytes, and
  AES-GCM produces `ciphertext ++ 16-byte tag`, decryption succeeding with
  the original data iff the tag matches and failing (`none`) otherwise.
  The interior mixing function is an arbitrary deterministic hash; no
  theorem below depends on its specific values except through evaluation
  at concrete inputs.
-/

/-- JavaScript string: list of UTF-16 code units. -/
abbrev JStr := List Nat

/-- Indexing with JS semantics used by the source's key-mixing loops:
out-of-range (or empty-list) access behaves like the `undefined`/`NaN`
coercion to `0` that JS bitwise operators perform. -/
def jsGet (l : List Nat) (i : Nat) : Nat := l.getD i 0

/-- `c1 ^ c2` on JS numbers restricted to the naturals that appear here. -/
abbrev jsXor (a b : Nat) : Nat := a ^^^ b

/- ## Base64 (`btoa` / `atob`)

The source uses `window.btoa`/`window.atob` plus the thin wrappers
`SecurityUtils.arrayBufferToBase64` / `SecurityUtils.base64ToArrayBuffer`.
`b64encode` produces canonical padded base64.  `b64decodeCore` decodes
canonical padded base64 and rejects everything else; JS `atob` is more
forgiving (it also accepts unpadded input whose length is 2 or 3 mod 4 and
strips ASCII whitespace first - the whitespace stripping is modelled, the
unpadded forms are not because no payload in this development, and none
produced by the source's own encoder, is unpadded). -/

/-- The base64 alphabet, as the code of the character for a 6-bit value. -/
def b64Char (n : Nat) : Nat :=
  if n < 26 then 65 + n
  else if n < 52 then 97 + (n - 26)
  else if n < 62 then 48 + (n - 52)
  else if n = 62 then 43
  else 47

/-- Inverse of the base64 alphabet; `none` on characters outside it
(including the padding character `=`, code 61). -/
def b64CharInv (c : Nat) : Option Nat :=
  if 65 ≤ c ∧ c ≤ 90 then some (c - 65)
  else if 97 ≤ c ∧ c ≤ 122 then some (c - 71)
  else if 48 ≤ c ∧ c ≤ 57 then some (c + 4)
  else if c = 43 then some 62
  else if c = 47 then some 63
  else none

/-- Canonical padded base64 of a byte list. -/
def b64encode : List Nat → List Nat
  | [] => []
  | [a] => [b64Char (a / 4), b64Char (a % 4 * 16), 61, 61]
  | [a, b] => [b64Char (a / 4), b64Char (a % 4 * 16 + b / 16), b64Char (b % 16 * 4), 61]
  | a :: b :: c :: rest =>
      b64Char (a / 4) :: b64Char (a % 4 * 16 + b / 16) ::
      b64Char (b % 16 * 4 + c / 64) :: b64Char (c % 64) :: b64encode rest

/-- Decode canonical padded base64. -/
def b64decodeCore : List Nat → Option (List Nat)
  | [] => some []
  | c1 :: c2 :: c3 :: c4 :: rest =>
      match b64CharInv c1, b64CharInv c2 with
      | some v1, some v2 =>
        if c3 = 61 then
          if c4 = 61 ∧ rest = [] then some [v1 * 4 + v2 / 16] else none
        else
          match b64CharInv c3 with
          | some v3 =>
            if c4 = 61 then
              if rest = [] then some [v1 * 4 + v2 / 16, v2 % 16 * 16 + v3 / 4] else none
            else
              match b64CharInv c4, b64decodeCore rest with
              | some v4, some tail =>
                  some ((v1 * 4 + v2 / 16) :: (v2 % 16 * 16 + v3 / 4) ::
                        (v3 % 4 * 64 + v4) :: tail)
              | _, _ => none
          | none => none
      | _, _ => none
  | _ => none

/-- ASCII whitespace stripped by the forgiving-base64 algorithm behind
JS `atob` (HTML: TAB, LF, FF, CR, SPACE). -/
def isAsciiWs (c : Nat) : Bool := c = 9 || c = 10 || c = 12 || c = 13 || c = 32

/-- `window.atob`: strip ASCII whitespace, then decode; `none` models the
thrown `InvalidCharacterError`. -/
def jsAtob (s : JStr) : Option (List Nat) :=
  b64decodeCore (s.filter (fun c => !isAsciiWs c))

/-- `window.btoa`: fails (throws) when some code unit exceeds 255. -/
def jsBtoa (s : JStr) : Option JStr :=
  if s.all (· < 256) then some (b64encode s) else none

theorem b64CharInv_b64Char {n : Nat} (h : n < 64) : b64CharInv (b64Char n) = some n := by
  revert h; revert n; decide

theorem b64Char_ne_61 {n : Nat} (h : n < 64) : b64Char n ≠ 61 := by
  revert h; revert n; decide

theorem b64Char_not_ws {n : Nat} (h : n < 64) : isAsciiWs (b64Char n) = false := by
  revert h; revert n; decide

theorem b64decode_b64encode (bs : List Nat) (hb : ∀ b ∈ bs, b < 256) :
    b64decodeCore (b64encode bs) = some bs := by
  induction bs using b64encode.induct with
  | case1 => simp [b64encode, b64decodeCore]
  | case2 a =>
      have ha : a < 256 := hb a (by simp)
      have h1 : a / 4 < 64 := by omega
      have h2 : a % 4 * 16 < 64 := by omega
      simp only [b64encode, b64decodeCore, b64CharInv_b64Char h1, b64CharInv_b64Char h2]
      simp
      omega
  | case3 a b =>
      have ha : a < 256 := hb a (by simp)
      have hbb : b < 256 := hb b (by simp)
      have h1 : a / 4 < 64 := by omega
      have h2 : a % 4 * 16 + b / 16 < 64 := by omega
      have h3 : b % 16 * 4 < 64 := by omega
      simp only [b64encode, b64decodeCore, b64CharInv_b64Char h1, b64CharInv_b64Char h2,
        b64CharInv_b64Char h3]
      rw [if_neg (b64Char_ne_61 h3)]
      simp
      omega
  | case4 a b c rest ih =>
      have ha : a < 256 := hb a (by simp)
      have hbb : b < 256 := hb b (by simp)
      have hc : c < 256 := hb c (by simp)
      have hrest : ∀ x ∈ rest, x < 256 := fun x hx => hb x (by simp [hx])
      have h1 : a / 4 < 64 := by omega
      have h2 : a % 4 * 16 + b / 16 < 64 := by omega
      have h3 : b % 16 * 4 + c / 64 < 64 := by omega
      have h4 : c % 64 < 64 := by omega
      simp only [b64encode, b64decodeCore, b64CharInv_b64Char h1, b64CharInv_b64Char h2,
        b64CharInv_b64Char h3, b64CharInv_b64Char h4]
      rw [if_neg (b64Char_ne_61 h3), if_neg (b64Char_ne_61 h4), ih hrest]
      simp
      refine ⟨by omega, by omega, by omega⟩

theorem b64encode_mem_not_ws (bs : List Nat) (hb : ∀ b ∈ bs, b < 256) :
    ∀ c ∈ b64encode bs, (!isAsciiWs c) = true := by
  induction bs using b64encode.induct with
  | case1 => intro c hc; simp [b64encode] at hc
  | case2 a =>
      have ha : a < 256 := hb a (by simp)
      intro c hc
      simp [b64encode] at hc
      rcases hc with h | h | h
      · simp [h, b64Char_not_ws (show a / 4 < 64 by omega)]
      · simp [h, b64Char_not_ws (show a % 4 * 16 < 64 by omega)]
      · simp [h]; decide
  | case3 a b =>
      have ha : a < 256 := hb a (by simp)
      have hbb : b < 256 := hb b (by simp)
      intro c hc
      simp [b64encode] at hc
      rcases hc with h | h | h | h
      · simp [h, b64Char_not_ws (show a / 4 < 64 by omega)]
      · simp [h, b64Char_not_ws (show a % 4 * 16 + b / 16 < 64 by omega)]
      · simp [h, b64Char_not_ws (show b % 16 * 4 < 64 by omega)]
      · simp [h]; decide
  | case4 a b c rest ih =>
      have ha : a < 256 := hb a (by simp)
      have hbb : b < 256 := hb b (by simp)
      have hc2 : c < 256 := hb c (by simp)
      have hrest : ∀ x ∈ rest, x < 256 := fun x hx => hb x (by simp [hx])
      intro x hx
      simp [b64encode] at hx
      rcases hx with h | h | h | h | h
      · simp [h, b64Char_not_ws (show a / 4 < 64 by omega)]
      · simp [h, b64Char_not_ws (show a % 4 * 16 + b / 16 < 64 by omega)]
      · simp [h, b64Char_not_ws (show b % 16 * 4 + c / 64 < 64 by omega)]
      · simp [h, b64Char_not_ws (show c % 64 < 64 by omega)]
      · exact ih hrest x h

theorem b64encode_no_ws (bs : List Nat) (hb : ∀ b ∈ bs, b < 256) :
    (b64encode bs).filter (fun c => !isAsciiWs c) = b64encode bs :=
  List.filter_eq_self.mpr (b64encode_mem_not_ws bs hb)

/-- `atob` inverts `b64encode` on byte lists. -/
theorem jsAtob_b64encode (bs : List Nat) (hb : ∀ b ∈ bs, b < 256) :
    jsAtob (b64encode bs) = some bs := by
  unfold jsAtob
  rw [b64encode_no_ws bs hb, b64decode_b64encode bs hb]


/- ## UTF-8 (`TextEncoder` / `TextDecoder`, `encodeURIComponent`/`unescape`)

`utf8EncodeUnits` is `TextEncoder.encode` on a JS string viewed as UTF-16
code units, factored as WebIDL's USVString conversion (`toScalars`:
surrogate pairs combine, lone surrogates become U+FFFD) followed by
per-scalar UTF-8 serialization (`encScalar`).  `utf8DecodeStrict` is a
strict UTF-8 decoder (rejecting overlong forms, surrogates and
out-of-range code points) whose output is again a unit list: it is the
semantics of `decodeURIComponent` applied to percent-encoded bytes.
`TextDecoder` ('utf-8', non-fatal) never throws; the model is exact on
valid input and coarsely maps malformed input to U+FFFD - no theorem
below applies it to malformed bytes. -/

/-- USVString conversion: combine surrogate pairs into code points and
replace lone surrogates with U+FFFD. -/
def toScalars : List Nat → List Nat
  | [] => []
  | c :: rest =>
    if c < 0xD800 then c :: toScalars rest
    else if c < 0xDC00 then
      match rest with
      | c2 :: rest2 =>
        if 0xDC00 ≤ c2 ∧ c2 < 0xE000 then
          (0x10000 + (c - 0xD800) * 1024 + (c2 - 0xDC00)) :: toScalars rest2
        else 0xFFFD :: toScalars (c2 :: rest2)
      | [] => [0xFFFD]
    else if c < 0xE000 then 0xFFFD :: toScalars rest
    else c :: toScalars rest

/-- UTF-8 bytes of one Unicode scalar value. -/
def encScalar (cp : Nat) : List Nat :=
  if cp < 0x80 then [cp]
  else if cp < 0x800 then [0xC0 + cp / 64, 0x80 + cp % 64]
  else if cp < 0x10000 then [0xE0 + cp / 4096, 0x80 + cp / 64 % 64, 0x80 + cp % 64]
  else [0xF0 + cp / 262144, 0x80 + cp / 4096 % 64, 0x80 + cp / 64 % 64, 0x80 + cp % 64]

/-- `TextEncoder.encode` over UTF-16 code units. -/
def utf8EncodeUnits (us : JStr) : List Nat := (toScalars us).flatMap encScalar

/-- Unicode scalar value usable in interchange. -/
def validScalar (cp : Nat) : Bool :=
  decide (cp < 0x110000) && !(decide (0xD800 ≤ cp) && decide (cp < 0xE000))

/-- Well-formed JS string: no lone surrogates and every unit `< 0x10000`.
Every string a JS engine holds satisfies the unit bound; absence of lone
surrogates is what makes UTF-8 encoding lossless. -/
def wfUnits : List Nat → Bool
  | [] => true
  | c :: rest =>
    if c < 0xD800 then wfUnits rest
    else if c < 0xDC00 then
      match rest with
      | c2 :: rest2 => decide (0xDC00 ≤ c2) && decide (c2 < 0xE000) && wfUnits rest2
      | [] => false
    else if c < 0xE000 then false
    else decide (c < 0x10000) && wfUnits rest

/-- Is a UTF-8 continuation byte. -/
def isCont (b : Nat) : Bool := decide (0x80 ≤ b) && decide (b < 0xC0)

/-- Strict decoding of one UTF-8 sequence from the front of a byte list,
returning its Unicode scalar value and the remaining bytes; `none` on
malformed input (bad lead byte, bad continuation byte, overlong form,
surrogate or out-of-range code point). -/
def decodeOne : List Nat → Option (Nat × List Nat)
  | [] => none
  | b :: bs =>
    if b < 0x80 then some (b, bs)
    else if 0xC2 ≤ b ∧ b < 0xE0 then
      match bs with
      | b2 :: bs2 =>
        if isCont b2 then some ((b - 0xC0) * 64 + (b2 - 0x80), bs2) else none
      | [] => none
    else if 0xE0 ≤ b ∧ b < 0xF0 then
      match bs with
      | b2 :: b3 :: bs3 =>
        if isCont b2 && isCont b3 then
          let cp := (b - 0xE0) * 4096 + (b2 - 0x80) * 64 + (b3 - 0x80)
          if 0x800 ≤ cp ∧ ¬(0xD800 ≤ cp ∧ cp < 0xE000) then some (cp, bs3)
          else none
        else none
      | _ => none
    else if 0xF0 ≤ b ∧ b < 0xF5 then
      match bs with
      | b2 :: b3 :: b4 :: bs4 =>
        if isCont b2 && isCont b3 && isCont b4 then
          let cp := (b - 0xF0) * 262144 + (b2 - 0x80) * 4096 + (b3 - 0x80) * 64 + (b4 - 0x80)
          if 0x10000 ≤ cp ∧ cp < 0x110000 then some (cp, bs4)
          else none
        else none
      | _ => none
    else none

theorem decodeOne_length (l : List Nat) (cp : Nat) (rest : List Nat)
    (h : decodeOne l = some (cp, rest)) : rest.length < l.length := by
  cases l with
  | nil => simp [decodeOne] at h
  | cons b bs =>
      dsimp only [decodeOne] at h
      repeat' split at h
      all_goals simp_all
      all_goals omega

/-- Fuel-driven loop of the strict UTF-8 decoder; since `decodeOne`
consumes at least one byte, `l.length` fuel always suffices. -/
def decodeLoop : Nat → List Nat → Option (List Nat)
  | 0, l => if l = [] then some [] else none
  | fuel + 1, l =>
      match decodeOne l with
      | some (cp, rest) => (decodeLoop fuel rest).map (cp :: ·)
      | none => if l = [] then some [] else none

/-- Strict UTF-8 decoding to Unicode scalar values. -/
def utf8DecodeScalars (l : List Nat) : Option (List Nat) := decodeLoop l.length l

theorem decodeLoop_bounded : ∀ (n fuel : Nat) (l : List Nat), l.length ≤ fuel → fuel ≤ n →
    decodeLoop fuel l = decodeLoop l.length l := by
  intro n
  induction n with
  | zero =>
      intro fuel l h1 h2
      have hf : fuel = 0 := by omega
      subst hf
      have hl : l = [] := List.length_eq_zero.mp (by omega)
      subst hl
      rfl
  | succ n ih =>
      intro fuel l h1 h2
      cases fuel with
      | zero =>
          have hl : l = [] := List.length_eq_zero.mp (by omega)
          subst hl
          rfl
      | succ fuel =>
          cases l with
          | nil => simp [decodeLoop, decodeOne]
          | cons x xs =>
              rw [show (x :: xs).length = xs.length + 1 from rfl, decodeLoop, decodeLoop]
              cases hd : decodeOne (x :: xs) with
              | none => rfl
              | some pr =>
                  obtain ⟨cp, rest⟩ := pr
                  have hlt := decodeOne_length _ _ _ hd
                  show (decodeLoop fuel rest).map (cp :: ·)
                    = (decodeLoop xs.length rest).map (cp :: ·)
                  rw [ih fuel rest (by simp at hlt h1; omega) (by omega),
                    ih xs.length rest (by simp at hlt; omega) (by simp at h1; omega)]

theorem decodeLoop_fuel_irrel (fuel : Nat) (l : List Nat) (h : l.length ≤ fuel) :
    decodeLoop fuel l = utf8DecodeScalars l := by
  rw [utf8DecodeScalars]
  exact decodeLoop_bounded fuel fuel l h (Nat.le_refl fuel)

theorem utf8DecodeScalars_some {l : List Nat} {cp : Nat} {rest : List Nat}
    (h : decodeOne l = some (cp, rest)) :
    utf8DecodeScalars l = (utf8DecodeScalars rest).map (cp :: ·) := by
  have hlt := decodeOne_length l cp rest h
  cases l with
  | nil => simp [decodeOne] at h
  | cons x xs =>
      rw [utf8DecodeScalars, show (x :: xs).length = xs.length + 1 from rfl]
      rw [decodeLoop, h]
      show (decodeLoop xs.length rest).map (cp :: ·) = (utf8DecodeScalars rest).map (cp :: ·)
      rw [decodeLoop_fuel_irrel xs.length rest (by simp at hlt; omega)]

theorem utf8DecodeScalars_nil : utf8DecodeScalars [] = some [] := rfl

/-- Scalar values back to UTF-16 code units (pairs for the astral plane). -/
def scalarsToUnits : List Nat → List Nat
  | [] => []
  | cp :: rest =>
    if cp < 0x10000 then cp :: scalarsToUnits rest
    else (0xD800 + (cp - 0x10000) / 1024) :: (0xDC00 + (cp - 0x10000) % 1024) :: scalarsToUnits rest

/-- Strict UTF-8 decoding to UTF-16 code units, as a JS string. -/
def utf8DecodeStrict (bs : List Nat) : Option JStr :=
  (utf8DecodeScalars bs).map scalarsToUnits

/-- `new TextDecoder('utf-8').decode` (non-fatal); exact on valid UTF-8. -/
def textDecode (bs : List Nat) : JStr :=
  (utf8DecodeStrict bs).getD [0xFFFD]

/-- The composite `unescape(encodeURIComponent(text))` used by
`fallbackEncrypt`: yields the UTF-8 bytes of the string, one byte per code
unit; `encodeURIComponent` throws `URIError` on a lone surrogate. -/
def encodeURIComponentUnescape (s : JStr) : Option JStr :=
  if wfUnits s then some (utf8EncodeUnits s) else none

/-- The composite `decodeURIComponent(escape(s))` used by
`fallbackDecrypt`: reads the code units of `s` as bytes and decodes them
strictly as UTF-8; `escape` turns units above 0xFF into `%uXXXX`, which
`decodeURIComponent` rejects, and malformed UTF-8 raises `URIError`. -/
def decodeURIComponentEscape (s : JStr) : Option JStr :=
  if s.all (· < 256) then utf8DecodeStrict s else none

theorem isCont_true {b : Nat} (h1 : 0x80 ≤ b) (h2 : b < 0xC0) : isCont b = true := by
  simp [isCont]; omega

theorem decodeOne_encScalar (cp : Nat) (hv : validScalar cp = true) (tail : List Nat) :
    decodeOne (encScalar cp ++ tail) = some (cp, tail) := by
  have hcp' : cp < 0x110000 ∧ (cp < 0xD800 ∨ 0xE000 ≤ cp) := by
    simpa [validScalar, Decidable.not_and_iff_or_not] using hv
  by_cases h1 : cp < 0x80
  · rw [encScalar, if_pos h1, List.cons_append, List.nil_append]
    dsimp only [decodeOne]
    rw [if_pos h1]
  · by_cases h2 : cp < 0x800
    · rw [encScalar, if_neg h1, if_pos h2, List.cons_append, List.cons_append,
        List.nil_append]
      dsimp only [decodeOne]
      rw [if_neg (by omega), if_pos (by omega : 0xC2 ≤ 0xC0 + cp / 64 ∧ 0xC0 + cp / 64 < 0xE0),
        if_pos (isCont_true (by omega) (by omega))]
      simp only [Option.some.injEq, Prod.mk.injEq]
      exact ⟨by omega, trivial⟩
    · by_cases h3 : cp < 0x10000
      · rw [encScalar, if_neg h1, if_neg h2, if_pos h3, List.cons_append, List.cons_append,
          List.cons_append, List.nil_append]
        dsimp only [decodeOne]
        rw [if_neg (by omega), if_neg (by omega),
          if_pos (by omega : 0xE0 ≤ 0xE0 + cp / 4096 ∧ 0xE0 + cp / 4096 < 0xF0)]
        rw [if_pos (by rw [isCont_true (by omega : (0x80 : Nat) ≤ 0x80 + cp / 64 % 64) (by omega),
          isCont_true (by omega : (0x80 : Nat) ≤ 0x80 + cp % 64) (by omega)]; rfl)]
        rw [if_pos (by constructor <;> omega)]
        simp only [Option.some.injEq, Prod.mk.injEq]
        exact ⟨by omega, trivial⟩
      · rw [encScalar, if_neg h1, if_neg h2, if_neg h3, List.cons_append, List.cons_append,
          List.cons_append, List.cons_append, List.nil_append]
        dsimp only [decodeOne]
        rw [if_neg (by omega), if_neg (by omega), if_neg (by omega),
          if_pos (by omega : 0xF0 ≤ 0xF0 + cp / 262144 ∧ 0xF0 + cp / 262144 < 0xF5)]
        rw [if_pos (by rw [isCont_true (by omega : (0x80 : Nat) ≤ 0x80 + cp / 4096 % 64) (by omega),
          isCont_true (by omega : (0x80 : Nat) ≤ 0x80 + cp / 64 % 64) (by omega),
          isCont_true (by omega : (0x80 : Nat) ≤ 0x80 + cp % 64) (by omega)]; rfl)]
        rw [if_pos (by constructor <;> omega)]
        simp only [Option.some.injEq, Prod.mk.injEq]
        exact ⟨by omega, trivial⟩

theorem utf8DecodeScalars_encScalar (ss : List Nat)
    (hv : ∀ cp ∈ ss, validScalar cp = true) :
    utf8DecodeScalars (ss.flatMap encScalar) = some ss := by
  induction ss with
  | nil => exact utf8DecodeScalars_nil
  | cons cp rest ih =>
      have hcp : validScalar cp = true := hv cp (by simp)
      have hrest : ∀ x ∈ rest, validScalar x = true := fun x hx => hv x (by simp [hx])
      rw [List.flatMap_cons, utf8DecodeScalars_some (decodeOne_encScalar cp hcp _), ih hrest]
      rfl

theorem toScalars_wf (us : JStr) (h : wfUnits us = true) :
    (∀ cp ∈ toScalars us, validScalar cp = true) ∧ scalarsToUnits (toScalars us) = us := by
  induction us using toScalars.induct with
  | case1 => exact ⟨by simp [toScalars], rfl⟩
  | case2 c rest hc ih =>
      rw [wfUnits.eq_def] at h
      dsimp only at h
      rw [if_pos hc] at h
      obtain ⟨ih1, ih2⟩ := ih h
      rw [toScalars.eq_def]
      dsimp only
      rw [if_pos hc]
      constructor
      · intro cp hcp
        rw [List.mem_cons] at hcp
        rcases hcp with hceq | hcp
        · simp [validScalar]
          omega
        · exact ih1 cp hcp
      · rw [scalarsToUnits, if_pos (by omega : c < 0x10000), ih2]
  | case3 c hc1 hc2 c2 rest2 hlow ih =>
      rw [wfUnits.eq_def] at h
      dsimp only at h
      rw [if_neg hc1, if_pos hc2] at h
      simp only [Bool.and_eq_true, decide_eq_true_eq] at h
      obtain ⟨ih1, ih2⟩ := ih h.2
      rw [toScalars.eq_def]
      dsimp only
      rw [if_neg hc1, if_pos hc2, if_pos hlow]
      constructor
      · intro cp hcp
        rw [List.mem_cons] at hcp
        rcases hcp with hceq | hcp
        · simp [validScalar]
          omega
        · exact ih1 cp hcp
      · rw [scalarsToUnits, if_neg (by omega), ih2]
        have e1 : 0xD800 + (0x10000 + (c - 0xD800) * 1024 + (c2 - 0xDC00) - 0x10000) / 1024 = c := by
          omega
        have e2 : 0xDC00 + (0x10000 + (c - 0xD800) * 1024 + (c2 - 0xDC00) - 0x10000) % 1024 = c2 := by
          omega
        rw [e1, e2]
  | case4 c hc1 hc2 c2 rest2 hlow ih =>
      rw [wfUnits.eq_def] at h
      dsimp only at h
      rw [if_neg hc1, if_pos hc2] at h
      simp only [Bool.and_eq_true, decide_eq_true_eq] at h
      exact absurd (by omega : 56320 ≤ c2 ∧ c2 < 57344) hlow
  | case5 c hc1 hc2 =>
      rw [wfUnits.eq_def] at h
      dsimp only at h
      rw [if_neg hc1, if_pos hc2] at h
      exact absurd h (by simp)
  | case6 c rest hc1 hc2 hc3 ih =>
      rw [wfUnits.eq_def] at h
      dsimp only at h
      rw [if_neg hc1, if_neg hc2, if_pos hc3] at h
      exact absurd h (by simp)
  | case7 c rest hc1 hc2 hc3 ih =>
      rw [wfUnits.eq_def] at h
      dsimp only at h
      rw [if_neg hc1, if_neg hc2, if_neg hc3] at h
      simp only [Bool.and_eq_true, decide_eq_true_eq] at h
      obtain ⟨ih1, ih2⟩ := ih h.2
      rw [toScalars.eq_def]
      dsimp only
      rw [if_neg hc1, if_neg hc2, if_neg hc3]
      constructor
      · intro cp hcp
        rw [List.mem_cons] at hcp
        rcases hcp with hceq | hcp
        · simp [validScalar]
          omega
        · exact ih1 cp hcp
      · rw [scalarsToUnits, if_pos (by omega : c < 0x10000), ih2]

/-- Strict UTF-8 decoding inverts `TextEncoder.encode` on well-formed
JS strings. -/
theorem utf8DecodeStrict_encode (us : JStr) (h : wfUnits us = true) :
    utf8DecodeStrict (utf8EncodeUnits us) = some us := by
  obtain ⟨h1, h2⟩ := toScalars_wf us h
  rw [utf8DecodeStrict, utf8EncodeUnits, utf8DecodeScalars_encScalar _ h1]
  rw [Option.map_some', h2]

/-- Every byte emitted by the UTF-8 encoder of a well-formed string is a
byte (`< 256`), in fact `< 0xF5`. -/
theorem utf8Encode_bytes_lt_256 (us : JStr) (h : wfUnits us = true) :
    ∀ b ∈ utf8EncodeUnits us, b < 256 := by
  obtain ⟨h1, _⟩ := toScalars_wf us h
  intro b hb
  rw [utf8EncodeUnits] at hb
  rw [List.mem_flatMap] at hb
  obtain ⟨cp, hcp, hbc⟩ := hb
  have hv : cp < 0x110000 := by
    have := h1 cp hcp
    simp [validScalar] at this
    exact this.1
  rw [encScalar] at hbc
  by_cases c1 : cp < 0x80
  · rw [if_pos c1] at hbc
    simp only [List.mem_cons, List.not_mem_nil, or_false] at hbc
    omega
  · rw [if_neg c1] at hbc
    by_cases c2 : cp < 0x800
    · rw [if_pos c2] at hbc
      simp only [List.mem_cons, List.not_mem_nil, or_false] at hbc
      rcases hbc with h | h <;> omega
    · rw [if_neg c2] at hbc
      by_cases c3 : cp < 0x10000
      · rw [if_pos c3] at hbc
        simp only [List.mem_cons, List.not_mem_nil, or_false] at hbc
        rcases hbc with h | h | h <;> omega
      · rw [if_neg c3] at hbc
        simp only [List.mem_cons, List.not_mem_nil, or_false] at hbc
        rcases hbc with h | h | h | h <;> omega

/- ## WebCrypto stand-ins (PBKDF2, AES-GCM)

The source calls `window.crypto.subtle` for PBKDF2-SHA256 key derivation
and AES-GCM.  These host primitives are modelled by executable
deterministic stand-ins built from an unspecified mixing hash `mixFold`:
the key is 32 bytes determined by (password bytes, salt bytes, iteration
count); AES-GCM encryption is a keystream XOR plus a 16-byte tag over
(key, iv, ciphertext); decryption checks the tag and inverts the
keystream, failing (`none` = the rejected promise / thrown
`OperationError`) on a tag mismatch or on input shorter than a tag. -/

def mixStep (a b : Nat) : Nat := ((a ^^^ b) * 16777619) % 4294967296

def mixFold (seed : Nat) (data : List Nat) : Nat := data.foldl mixStep seed

def prfByte (tag : Nat) (data : List Nat) (i : Nat) : Nat :=
  (mixFold (2166136261 + tag) (i :: data ++ [43981]) / 65536) % 256

/-- PBKDF2-SHA256 derivation of a 256-bit AES key, as a 32-byte list. -/
def pbkdf2Model (pw salt : List Nat) (iterations : Nat) : List Nat :=
  (List.range 32).map (prfByte 1 (pw ++ 0x10000 :: salt ++ [0x10001, iterations]))

def gcmKeystream (key iv : List Nat) (n : Nat) : List Nat :=
  (List.range n).map (prfByte 2 (key ++ 0x10000 :: iv))

def gcmTag (key iv ct : List Nat) : List Nat :=
  (List.range 16).map (prfByte 3 (key ++ 0x10000 :: iv ++ 0x10001 :: ct))

/-- `crypto.subtle.encrypt({name:'AES-GCM', iv}, key, data)`:
ciphertext concatenated with the 16-byte authentication tag. -/
def encryptGCM (key iv data : List Nat) : List Nat :=
  let ct := List.zipWith (· ^^^ ·) data (gcmKeystream key iv data.length)
  ct ++ gcmTag key iv ct

/-- `crypto.subtle.decrypt({name:'AES-GCM', iv}, key, blob)`:
`none` models the rejected promise on authentication failure. -/
def decryptGCM (key iv blob : List Nat) : Option (List Nat) :=
  if blob.length < 16 then none
  else
    let ct := blob.take (blob.length - 16)
    let tag := blob.drop (blob.length - 16)
    if tag = gcmTag key iv ct then
      some (List.zipWith (· ^^^ ·) ct (gcmKeystream key iv ct.length))
    else none

theorem zipWith_xor_cancel (d ks : List Nat) (h : d.length ≤ ks.length) :
    List.zipWith (· ^^^ ·) (List.zipWith (· ^^^ ·) d ks) ks = d := by
  induction d generalizing ks with
  | nil => simp
  | cons a d' ih =>
      cases ks with
      | nil => simp at h
      | cons b ks' =>
          simp only [List.zipWith_cons_cons, List.cons.injEq]
          refine ⟨?_, ih ks' (by simpa using h)⟩
          rw [Nat.xor_assoc, Nat.xor_self, Nat.xor_zero]

theorem gcmKeystream_length (key iv : List Nat) (n : Nat) :
    (gcmKeystream key iv n).length = n := by
  simp [gcmKeystream]

theorem gcmTag_length (key iv ct : List Nat) : (gcmTag key iv ct).length = 16 := by
  simp [gcmTag]

/-- The AES-GCM stand-in decrypts its own output. -/
theorem decryptGCM_encryptGCM (key iv data : List Nat) :
    decryptGCM key iv (encryptGCM key iv data) = some data := by
  have hct : (List.zipWith (· ^^^ ·) data (gcmKeystream key iv data.length)).length
      = data.length := by
    simp [gcmKeystream_length]
  rw [encryptGCM, decryptGCM]
  rw [if_neg (by simp only [List.length_append, hct, gcmTag_length]; omega)]
  have hlen : (List.zipWith (· ^^^ ·) data (gcmKeystream key iv data.length) ++
      gcmTag key iv (List.zipWith (· ^^^ ·) data (gcmKeystream key iv data.length))).length
      - 16 = data.length := by
    simp only [List.length_append, hct, gcmTag_length]
    omega
  rw [hlen]
  rw [List.take_left' hct, List.drop_left' hct, if_pos rfl, hct]
  rw [zipWith_xor_cancel data _ (by rw [gcmKeystream_length])]

theorem xor_lt_256 {a b : Nat} (ha : a < 256) (hb : b < 256) : a ^^^ b < 256 := by
  have h := Nat.xor_lt_two_pow (n := 8) (x := a) (y := b) (by simpa using ha) (by simpa using hb)
  simpa using h

theorem prfByte_lt_256 (tag : Nat) (data : List Nat) (i : Nat) : prfByte tag data i < 256 :=
  Nat.mod_lt _ (by norm_num)

theorem zipWith_xor_bytes : ∀ (d ks : List Nat), (∀ b ∈ d, b < 256) →
    (∀ b ∈ ks, b < 256) → ∀ b ∈ List.zipWith (· ^^^ ·) d ks, b < 256 := by
  intro d
  induction d with
  | nil => intro ks _ _ b hb; simp at hb
  | cons a d' ih =>
      intro ks hd hk b hb
      cases ks with
      | nil => simp at hb
      | cons c ks' =>
          simp only [List.zipWith_cons_cons, List.mem_cons] at hb
          rcases hb with rfl | hb
          · exact xor_lt_256 (hd a (by simp)) (hk c (by simp))
          · exact ih ks' (fun x hx => hd x (by simp [hx])) (fun x hx => hk x (by simp [hx])) b hb

theorem gcmKeystream_bytes (key iv : List Nat) (n : Nat) :
    ∀ b ∈ gcmKeystream key iv n, b < 256 := by
  intro b hb
  rw [gcmKeystream] at hb
  obtain ⟨i, _, rfl⟩ := List.mem_map.mp hb
  exact prfByte_lt_256 _ _ _

theorem gcmTag_bytes (key iv ct : List Nat) : ∀ b ∈ gcmTag key iv ct, b < 256 := by
  intro b hb
  rw [gcmTag] at hb
  obtain ⟨i, _, rfl⟩ := List.mem_map.mp hb
  exact prfByte_lt_256 _ _ _

theorem encryptGCM_bytes (key iv data : List Nat) (hd : ∀ b ∈ data, b < 256) :
    ∀ b ∈ encryptGCM key iv data, b < 256 := by
  intro b hb
  rw [encryptGCM] at hb
  rcases List.mem_append.mp hb with hb | hb
  · exact zipWith_xor_bytes data _ hd (gcmKeystream_bytes key iv data.length) b hb
  · exact gcmTag_bytes _ _ _ b hb

theorem pbkdf2Model_length (pw salt : List Nat) (iterations : Nat) :
    (pbkdf2Model pw salt iterations).length = 32 := by
  simp [pbkdf2Model]

/- ## The embedded source: CONFIG, SecurityUtils, CryptoUtils,
StorageManager, ValineCrypto

Each definition mirrors one function of the second IIFE of
`src/js/valine-encryption.js`; source line numbers are given in the doc
comments. -/

namespace CONFIG

/-- `CONFIG.ENCRYPTION_MARKER = '[🔒ENCRYPTED]'` (line 423); the lock
emoji U+1F512 is the UTF-16 surrogate pair 0xD83D 0xDD12. -/
def ENCRYPTION_MARKER : JStr := [91, 0xD83D, 0xDD12, 69, 78, 67, 82, 89, 80, 84, 69, 68, 93]

/-- `CONFIG.FALLBACK_MARKER = 'FALLBACK:'` (line 424). -/
def FALLBACK_MARKER : JStr := [70, 65, 76, 76, 66, 65, 67, 75, 58]

/-- `CONFIG.IV_LENGTH = 12` (line 427). -/
def IV_LENGTH : Nat := 12

end CONFIG

/-- `window.crypto.getRandomValues(new Uint8Array(n))` over an explicit
entropy source: `n` fresh bytes. -/
def getRandomValues (rand : Nat → Nat) (n : Nat) : List Nat :=
  (List.range n).map (fun i => rand i % 256)

/-- The `x || dflt` defaulting idiom on a configured number (line 457):
an absent value and a configured falsy `0` both fall back to the
default. -/
def jsOrDefault (cfg : Option Nat) (dflt : Nat) : Nat :=
  match cfg with
  | some n => if n = 0 then dflt else n
  | none => dflt

namespace SecurityUtils

/-- `SecurityUtils.generateStrongKey(password, salt)` (lines 444-471):
PBKDF2-SHA256 over the UTF-8 bytes of password and salt with the
configured iteration count (`window.VALINE_CRYPTO_CONFIG.security
.pbkdf2Iterations`, read through the `|| 100000` of line 457, which also
coerces a configured falsy 0 to 100000), yielding a 256-bit AES-GCM
key.  The function performs no validation of the password (an empty
string is passed straight to `importKey`) and none of the iteration
count. -/
def generateStrongKey (cfgIters : Option Nat) (password salt : JStr) : List Nat :=
  pbkdf2Model (utf8EncodeUnits password) (utf8EncodeUnits salt) (jsOrDefault cfgIters 100000)

/-- `SecurityUtils.arrayBufferToBase64` (lines 474-481): bytes to base64
via `btoa`; callers always pass genuine bytes, for which `btoa` cannot
throw. -/
def arrayBufferToBase64 (bs : List Nat) : JStr := b64encode bs

/-- `SecurityUtils.base64ToArrayBuffer` (lines 484-492): `atob` after
stripping whitespace (`trim` + `replace(/\s/g,'')`); the model's `atob`
already strips ASCII whitespace, which covers every whitespace character
appearing in this development. -/
def base64ToArrayBuffer (s : JStr) : Option (List Nat) := jsAtob s

end SecurityUtils

/-- `deriveKey(password, salt)` of the first IIFE (lines 17-39):
PBKDF2-SHA256, iterations fixed at 100000, yielding an AES-GCM-256 key;
a string salt is UTF-8-encoded (the `typeof salt === 'string'` branch).
No validation of password or iteration count exists here either. -/
def deriveKey (password salt : JStr) : List Nat :=
  pbkdf2Model (utf8EncodeUnits password) (utf8EncodeUnits salt) 100000

namespace CryptoUtils

/-- `CryptoUtils.createEnhancedKey` inner loop (lines 692-696):
`enhanced += fromCharCode(combined.charCodeAt(i) ^ (i % 256))`. -/
def enhanceAux : Nat → JStr → JStr
  | _, [] => []
  | i, c :: cs => (c ^^^ (i % 256)) :: enhanceAux (i + 1) cs

/-- `CryptoUtils.createEnhancedKey(masterKey, salt)` (lines 690-697):
`combined = masterKey + salt + masterKey.split('').reverse().join('')`,
then the positional XOR of `enhanceAux`. -/
def createEnhancedKey (masterKey salt : JStr) : JStr :=
  enhanceAux 0 (masterKey ++ salt ++ masterKey.reverse)

/-- `enhancedKey.charCodeAt(keyIndex % enhancedKey.length)`: on an empty
key the JS index is `NaN`, `charCodeAt` yields `NaN` and the xor
coerces it to 0. -/
def keyCharAt (key : JStr) (j : Nat) : Nat :=
  if key.length = 0 then 0 else jsGet key (j % key.length)

/-- One XOR round (lines 592-600 encrypting, 671-679 decrypting): position
`i` is xored with `key[(i + round*7) % key.length]` and `round + 1`. -/
def xorRoundAux (key : JStr) (round : Nat) : Nat → JStr → JStr
  | _, [] => []
  | i, c :: cs =>
      (c ^^^ keyCharAt key (i + round * 7) ^^^ (round + 1)) :: xorRoundAux key round (i + 1) cs

def xorRound (key : JStr) (round : Nat) (s : JStr) : JStr := xorRoundAux key round 0 s

/-- The `finalSalt` of the fallback pair (lines 577-583 / 661-666): with a
configured global salt it is
`VALINE_CRYPTO_SALT + '_' + salt + '_' + randomSuffix` where the suffix
is 6 fresh `Math.random` characters, otherwise the salt argument
unchanged. -/
def fallbackFinalSalt (cfg : Option JStr) (randSuffix salt : JStr) : JStr :=
  match cfg with
  | some cs => cs ++ [95] ++ salt ++ [95] ++ randSuffix
  | none => salt

/-- `CryptoUtils.fallbackEncrypt(text, masterKey, salt)` (lines 575-607):
UTF-8 via `unescape(encodeURIComponent(text))`, three XOR rounds
(0, 1, 2), then `btoa(FALLBACK_MARKER + transformed)`.  `none` is the
rethrown exception of the catch block (`encodeURIComponent` on a lone
surrogate, or `btoa` on a unit above 255). -/
def fallbackEncrypt (cfg : Option JStr) (randSuffix : JStr)
    (text masterKey salt : JStr) : Option JStr :=
  let enhancedKey := createEnhancedKey masterKey (fallbackFinalSalt cfg randSuffix salt)
  match encodeURIComponentUnescape text with
  | none => none
  | some t0 =>
      jsBtoa (CONFIG.FALLBACK_MARKER ++
        xorRound enhancedKey 2 (xorRound enhancedKey 1 (xorRound enhancedKey 0 t0)))

/-- `CryptoUtils.fallbackDecrypt(encryptedBase64, masterKey, salt)`
(lines 653-687): `atob`, strip the fallback marker when present, three
XOR rounds in reverse order (2, 1, 0), then
`decodeURIComponent(escape(...))`.  `none` is the `return null` of the
catch block. -/
def fallbackDecrypt (cfg : Option JStr) (randSuffix : JStr)
    (encryptedBase64 masterKey salt : JStr) : Option JStr :=
  match jsAtob encryptedBase64 with
  | none => none
  | some decoded =>
      let encryptedText :=
        if CONFIG.FALLBACK_MARKER.isPrefixOf decoded then
          decoded.drop CONFIG.FALLBACK_MARKER.length
        else decoded
      let enhancedKey := createEnhancedKey masterKey (fallbackFinalSalt cfg randSuffix salt)
      decodeURIComponentEscape
        (xorRound enhancedKey 0 (xorRound enhancedKey 1 (xorRound enhancedKey 2 encryptedText)))

/-- The salt reassignment of `CryptoUtils.encrypt` (lines 520-543): with a
configured global salt, XOR-mix its UTF-8 bytes with 8 fresh random bytes
into `saltLength` bytes, then prepend the base64 of that mix to the salt
argument; without one, the salt argument unchanged.  (JS quirk kept: when
the configured salt is empty the out-of-range reads yield `undefined`,
which the xor coerces to 0 - `jsGet` returns 0 there.) -/
def encSalt (cfg : Option JStr) (saltLength : Nat) (randSalt8 : Nat → Nat)
    (salt : JStr) : JStr :=
  match cfg with
  | some cs =>
      let configSalt := utf8EncodeUnits cs
      let randomSalt := getRandomValues randSalt8 8
      let finalSalt := (List.range saltLength).map
        (fun i => jsGet configSalt (i % configSalt.length) ^^^ jsGet randomSalt (i % 8))
      SecurityUtils.arrayBufferToBase64 finalSalt ++ salt
  | none => salt

/-- The primary body of `CryptoUtils.encrypt` (lines 545-565): derive the
key from the (possibly reassigned) salt, draw a fresh 12-byte IV, AES-GCM
encrypt the UTF-8 plaintext, and concatenate IV and cipher output. -/
def encryptBlob (cfg : Option JStr) (saltLength : Nat) (cfgIters : Option Nat)
    (randSalt8 randIV : Nat → Nat) (text masterKey salt : JStr) : List Nat :=
  let key := SecurityUtils.generateStrongKey cfgIters masterKey
    (encSalt cfg saltLength randSalt8 salt)
  let iv := getRandomValues randIV CONFIG.IV_LENGTH
  iv ++ encryptGCM key iv (utf8EncodeUnits text)

/-- `CryptoUtils.encrypt(text, masterKey, salt)` (lines 518-572).
`primaryThrows` is the event "some step of the try block threw"
(structural unavailability of `crypto.subtle`, or any other exception);
the catch block (lines 568-571) then calls `fallbackEncrypt` with the
already-reassigned salt.  With no exception the result is the base64 of
IV plus cipher output. -/
def encrypt (cfg : Option JStr) (saltLength : Nat) (cfgIters : Option Nat)
    (randSalt8 randIV : Nat → Nat) (randSuffix : JStr) (primaryThrows : Bool)
    (text masterKey salt : JStr) : Option JStr :=
  if primaryThrows then
    fallbackEncrypt cfg randSuffix text masterKey (encSalt cfg saltLength randSalt8 salt)
  else
    some (SecurityUtils.arrayBufferToBase64
      (encryptBlob cfg saltLength cfgIters randSalt8 randIV text masterKey salt))

/-- The primary branch of `CryptoUtils.decrypt` (lines 618-645): rebuild
the final salt (with a configured global salt the dead
`base64ToArrayBuffer(salt.substring(salt.length - 12))` of line 623 can
still throw, so it is kept as a failure point), derive the key, split the
decoded payload into IV and data at `IV_LENGTH`, and AES-GCM decrypt;
`some` is the decoded UTF-8 text, `none` any thrown error. -/
def decryptPrimary (cfg : Option JStr) (cfgIters : Option Nat)
    (encryptedBase64 masterKey salt : JStr) : Option JStr :=
  let finalSaltOpt : Option JStr :=
    match cfg with
    | some cs =>
        match SecurityUtils.base64ToArrayBuffer (salt.drop (salt.length - 12)) with
        | none => none
        | some _ =>
            some (SecurityUtils.arrayBufferToBase64 (utf8EncodeUnits cs) ++ salt)
    | none => some salt
  match finalSaltOpt with
  | none => none
  | some finalSalt =>
      let key := SecurityUtils.generateStrongKey cfgIters masterKey finalSalt
      match SecurityUtils.base64ToArrayBuffer encryptedBase64 with
      | none => none
      | some encryptedData =>
          let iv := encryptedData.take CONFIG.IV_LENGTH
          let data := encryptedData.drop CONFIG.IV_LENGTH
          match decryptGCM key iv data with
          | none => none
          | some pt => some (textDecode pt)

/-- `CryptoUtils.decrypt(encryptedBase64, masterKey, salt)` (lines
610-650): `atob` the payload; a payload whose decoded bytes start with
`FALLBACK_MARKER` goes to `fallbackDecrypt`; otherwise the primary branch
runs and ANY failure in it (bad base64, authentication failure, dead
salt-parsing throw) lands in the catch block of lines 646-649, which also
calls `fallbackDecrypt`. -/
def decrypt (cfg : Option JStr) (cfgIters : Option Nat) (randSuffix : JStr)
    (encryptedBase64 masterKey salt : JStr) : Option JStr :=
  match jsAtob encryptedBase64 with
  | none => fallbackDecrypt cfg randSuffix encryptedBase64 masterKey salt
  | some decoded =>
      if CONFIG.FALLBACK_MARKER.isPrefixOf decoded then
        fallbackDecrypt cfg randSuffix encryptedBase64 masterKey salt
      else
        match decryptPrimary cfg cfgIters encryptedBase64 masterKey salt with
        | some r => some r
        | none => fallbackDecrypt cfg randSuffix encryptedBase64 masterKey salt

end CryptoUtils

namespace StorageManager

/-- `StorageManager.saveKey(key, remember)` (lines 703-717) acting on the
`localStorage` slot `valine_crypto_master_key` (modelled as
`Option JStr`): `remember = false` clears the slot; otherwise the slot
receives `btoa(key.split('').reverse().join(''))`; if `btoa` throws the
catch block leaves the slot unchanged. -/
def saveKey (stored : Option JStr) (key : JStr) (remember : Bool) : Option JStr :=
  if !remember then none
  else
    match jsBtoa key.reverse with
    | some obfuscated => some obfuscated
    | none => stored

/-- `StorageManager.getKey()` (lines 719-730): the guard
`if (!obfuscated) return null` (line 723) treats both an absent slot
(`getItem` returning `null`) and a stored empty string as missing, since
`''` is falsy; otherwise the result is
`atob(stored).split('').reverse().join('')`, with `null` from the catch
block if `atob` throws. -/
def getKey (stored : Option JStr) : Option JStr :=
  match stored with
  | none => none
  | some obfuscated =>
      if obfuscated = [] then none
      else
        match jsAtob obfuscated with
        | some s => some s.reverse
        | none => none

end StorageManager

namespace ValineCrypto

/-- Line 1260 of `bindSubmitHandler`:
`textarea.value = CONFIG.ENCRYPTION_MARKER + encrypted`. -/
def submitPayload (encrypted : JStr) : JStr := CONFIG.ENCRYPTION_MARKER ++ encrypted

/-- Result of the marker inspection a rendered comment undergoes. -/
inductive MarkerClass where
  | encrypted (payload : JStr)
  | notEncoded
deriving DecidableEq

/-- `ValineCrypto.processComments` per-comment logic (lines 1292-1299) with
`handleEncryptedComment` (lines 1306-1318): a comment whose text starts
with `ENCRYPTION_MARKER` is treated as encrypted and the payload after
the marker is extracted; any other text is left untouched as ordinary
plaintext. -/
def classifyComment (text : JStr) : MarkerClass :=
  if CONFIG.ENCRYPTION_MARKER.isPrefixOf text then
    .encrypted (text.drop CONFIG.ENCRYPTION_MARKER.length)
  else .notEncoded

end ValineCrypto

/- ## Supporting lemmas -/

theorem xor_round_cancel (c k p : Nat) : ((c ^^^ k ^^^ p) ^^^ k) ^^^ p = c := by
  rw [Nat.xor_assoc c k p, Nat.xor_assoc c (k ^^^ p) k, Nat.xor_assoc c _ p]
  rw [Nat.xor_assoc (k ^^^ p) k p]
  rw [show k ^^^ p = p ^^^ k from Nat.xor_comm k p]
  rw [Nat.xor_self, Nat.xor_zero]

namespace CryptoUtils

/-- Each XOR round is an involution: the decrypting pass undoes the
encrypting pass of the same round index. -/
theorem xorRoundAux_involution (key : JStr) (round : Nat) :
    ∀ (i : Nat) (s : JStr), xorRoundAux key round i (xorRoundAux key round i s) = s := by
  intro i s
  induction s generalizing i with
  | nil => rfl
  | cons c cs ih =>
      rw [xorRoundAux, xorRoundAux, xor_round_cancel, ih]

theorem xorRound_involution (key : JStr) (round : Nat) (s : JStr) :
    xorRound key round (xorRound key round s) = s :=
  xorRoundAux_involution key round 0 s

/-- The three decrypting rounds (2, 1, 0 applied as 0∘1∘2) undo the three
encrypting rounds (0, 1, 2 applied as 2∘1∘0). -/
theorem xorRound_three_cancel (key : JStr) (s : JStr) :
    xorRound key 0 (xorRound key 1 (xorRound key 2
      (xorRound key 2 (xorRound key 1 (xorRound key 0 s))))) = s := by
  rw [xorRound_involution key 2, xorRound_involution key 1, xorRound_involution key 0]

theorem jsGet_lt_256 (l : List Nat) (hk : ∀ c ∈ l, c < 256) (i : Nat) :
    jsGet l i < 256 := by
  rw [jsGet]
  rcases Nat.lt_or_ge i l.length with hlt | hge
  · exact hk _ (by rw [List.getD_eq_getElem l 0 hlt]; exact List.getElem_mem hlt)
  · rw [List.getD_eq_default _ _ (by omega)]
    omega

theorem keyCharAt_lt_256 (key : JStr) (hk : ∀ c ∈ key, c < 256) (j : Nat) :
    keyCharAt key j < 256 := by
  rw [keyCharAt]
  split
  · omega
  · exact jsGet_lt_256 key hk _

/-- Characters of the enhanced key are bytes when the inputs are. -/
theorem enhanceAux_lt_256 : ∀ (i : Nat) (s : JStr), (∀ c ∈ s, c < 256) →
    ∀ c ∈ enhanceAux i s, c < 256 := by
  intro i s
  induction s generalizing i with
  | nil => intro _ c hc; simp [enhanceAux] at hc
  | cons a cs ih =>
      intro hs c hc
      rw [enhanceAux] at hc
      rcases List.mem_cons.mp hc with rfl | hc
      · exact xor_lt_256 (hs a (by simp)) (by omega : i % 256 < 256)
      · exact ih (i + 1) (fun x hx => hs x (by simp [hx])) c hc

theorem createEnhancedKey_lt_256 (masterKey salt : JStr)
    (hm : ∀ c ∈ masterKey, c < 256) (hs : ∀ c ∈ salt, c < 256) :
    ∀ c ∈ createEnhancedKey masterKey salt, c < 256 := by
  rw [createEnhancedKey]
  refine enhanceAux_lt_256 0 _ ?_
  intro c hc
  rcases List.mem_append.mp hc with hc | hc
  · rcases List.mem_append.mp hc with hc | hc
    · exact hm c hc
    · exact hs c hc
  · exact hm c (List.mem_reverse.mp hc)

/-- XOR-round output characters stay below 256 when the input and the key
do (the round constant is at most 3). -/
theorem xorRoundAux_lt_256 (key : JStr) (round : Nat) (hk : ∀ c ∈ key, c < 256)
    (hr : round + 1 < 256) : ∀ (i : Nat) (s : JStr), (∀ c ∈ s, c < 256) →
    ∀ c ∈ xorRoundAux key round i s, c < 256 := by
  intro i s
  induction s generalizing i with
  | nil => intro _ c hc; simp [xorRoundAux] at hc
  | cons a cs ih =>
      intro hs c hc
      rw [xorRoundAux] at hc
      rcases List.mem_cons.mp hc with rfl | hc
      · exact xor_lt_256 (xor_lt_256 (hs a (by simp)) (keyCharAt_lt_256 key hk _)) hr
      · exact ih (i + 1) (fun x hx => hs x (by simp [hx])) c hc

theorem xorRound_lt_256 (key : JStr) (round : Nat) (s : JStr)
    (hk : ∀ c ∈ key, c < 256) (hr : round + 1 < 256) (hs : ∀ c ∈ s, c < 256) :
    ∀ c ∈ xorRound key round s, c < 256 :=
  xorRoundAux_lt_256 key round hk hr 0 s hs

end CryptoUtils

theorem getRandomValues_length (rand : Nat → Nat) (n : Nat) :
    (getRandomValues rand n).length = n := by
  simp [getRandomValues]

theorem getRandomValues_bytes (rand : Nat → Nat) (n : Nat) :
    ∀ b ∈ getRandomValues rand n, b < 256 := by
  intro b hb
  rw [getRandomValues] at hb
  obtain ⟨i, _, rfl⟩ := List.mem_map.mp hb
  exact Nat.mod_lt _ (by norm_num)

namespace CryptoUtils

/-- Path lemma: a well-formed payload that is not fallback-marked and whose
primary branch succeeds decrypts to the primary result. -/
theorem decrypt_eq_primary (cfg : Option JStr) (it : Option Nat) (suf E mk salt d r : JStr)
    (h1 : jsAtob E = some d)
    (h2 : CONFIG.FALLBACK_MARKER.isPrefixOf d = false)
    (h3 : decryptPrimary cfg it E mk salt = some r) :
    decrypt cfg it suf E mk salt = some r := by
  rw [decrypt, h1]
  show (if List.isPrefixOf CONFIG.FALLBACK_MARKER d = true then
      fallbackDecrypt cfg suf E mk salt
    else match decryptPrimary cfg it E mk salt with
      | some r => some r
      | none => fallbackDecrypt cfg suf E mk salt) = some r
  rw [h2, if_neg (by simp : ¬ false = true), h3]

/-- Path lemma: when the primary branch fails (bad base64, dead salt-parse
throw, or AES-GCM authentication failure), `decrypt` falls back to the XOR
decoder - there is no dedicated authentication error. -/
theorem decrypt_eq_fallback_of_primary_fail (cfg : Option JStr) (it : Option Nat)
    (suf E mk salt d : JStr)
    (h1 : jsAtob E = some d)
    (h2 : CONFIG.FALLBACK_MARKER.isPrefixOf d = false)
    (h3 : decryptPrimary cfg it E mk salt = none) :
    decrypt cfg it suf E mk salt = fallbackDecrypt cfg suf E mk salt := by
  rw [decrypt, h1]
  show (if List.isPrefixOf CONFIG.FALLBACK_MARKER d = true then
      fallbackDecrypt cfg suf E mk salt
    else match decryptPrimary cfg it E mk salt with
      | some r => some r
      | none => fallbackDecrypt cfg suf E mk salt) = fallbackDecrypt cfg suf E mk salt
  rw [h2, if_neg (by simp : ¬ false = true), h3]

/-- Path lemma: a fallback-marked payload goes straight to the XOR
decoder. -/
theorem decrypt_eq_fallback_of_marker (cfg : Option JStr) (it : Option Nat)
    (suf E mk salt d : JStr)
    (h1 : jsAtob E = some d)
    (h2 : CONFIG.FALLBACK_MARKER.isPrefixOf d = true) :
    decrypt cfg it suf E mk salt = fallbackDecrypt cfg suf E mk salt := by
  rw [decrypt, h1]
  show (if List.isPrefixOf CONFIG.FALLBACK_MARKER d = true then
      fallbackDecrypt cfg suf E mk salt
    else match decryptPrimary cfg it E mk salt with
      | some r => some r
      | none => fallbackDecrypt cfg suf E mk salt) = fallbackDecrypt cfg suf E mk salt
  rw [h2, if_pos rfl]

/-- With no configured global salt, the primary decrypt branch on a payload
produced by the primary encrypt branch recovers the plaintext. -/
theorem decryptPrimary_encryptBlob (it : Option Nat) (randSalt8 randIV : Nat → Nat)
    (P mk salt : JStr) (hP : wfUnits P = true) :
    decryptPrimary none it
      (SecurityUtils.arrayBufferToBase64 (encryptBlob none 16 it randSalt8 randIV P mk salt))
      mk salt = some P := by
  have hdata := utf8Encode_bytes_lt_256 P hP
  set key := SecurityUtils.generateStrongKey it mk salt with hkey
  have hblob : encryptBlob none 16 it randSalt8 randIV P mk salt
      = getRandomValues randIV 12 ++
        encryptGCM key (getRandomValues randIV 12) (utf8EncodeUnits P) := rfl
  have hbytes : ∀ b ∈ encryptBlob none 16 it randSalt8 randIV P mk salt, b < 256 := by
    rw [hblob]
    intro b hb
    rcases List.mem_append.mp hb with hb | hb
    · exact getRandomValues_bytes randIV 12 b hb
    · exact encryptGCM_bytes _ _ _ hdata b hb
  have hatob : jsAtob (SecurityUtils.arrayBufferToBase64
      (encryptBlob none 16 it randSalt8 randIV P mk salt))
      = some (encryptBlob none 16 it randSalt8 randIV P mk salt) :=
    jsAtob_b64encode _ hbytes
  simp only [decryptPrimary, SecurityUtils.base64ToArrayBuffer, hatob]
  rw [hblob]
  rw [show CONFIG.IV_LENGTH = 12 from rfl]
  rw [List.take_left' (getRandomValues_length randIV 12),
    List.drop_left' (getRandomValues_length randIV 12)]
  rw [decryptGCM_encryptGCM]
  show some (textDecode (utf8EncodeUnits P)) = some P
  rw [textDecode, utf8DecodeStrict_encode P hP]
  rfl

end CryptoUtils

theorem fallback_marker_bytes : ∀ c ∈ CONFIG.FALLBACK_MARKER, c < 256 := by decide

namespace CryptoUtils

/-- With no configured global salt, `fallbackEncrypt` succeeds on
well-formed text and Latin-1 key/salt and produces the base64 of the
fallback marker followed by the three-round XOR transform. -/
theorem fallbackEncrypt_eq (suf P mk salt : JStr) (hP : wfUnits P = true)
    (hmk : ∀ c ∈ mk, c < 256) (hsalt : ∀ c ∈ salt, c < 256) :
    fallbackEncrypt none suf P mk salt
      = some (b64encode (CONFIG.FALLBACK_MARKER ++
          xorRound (createEnhancedKey mk salt) 2
            (xorRound (createEnhancedKey mk salt) 1
              (xorRound (createEnhancedKey mk salt) 0 (utf8EncodeUnits P))))) := by
  have hen : encodeURIComponentUnescape P = some (utf8EncodeUnits P) := by
    rw [encodeURIComponentUnescape, if_pos hP]
  have hkeyb := createEnhancedKey_lt_256 mk salt hmk hsalt
  have ht3 : ∀ c ∈ xorRound (createEnhancedKey mk salt) 2
      (xorRound (createEnhancedKey mk salt) 1
        (xorRound (createEnhancedKey mk salt) 0 (utf8EncodeUnits P))), c < 256 :=
    xorRound_lt_256 _ 2 _ hkeyb (by omega)
      (xorRound_lt_256 _ 1 _ hkeyb (by omega)
        (xorRound_lt_256 _ 0 _ hkeyb (by omega) (utf8Encode_bytes_lt_256 P hP)))
  have hall : (CONFIG.FALLBACK_MARKER ++
      xorRound (createEnhancedKey mk salt) 2
        (xorRound (createEnhancedKey mk salt) 1
          (xorRound (createEnhancedKey mk salt) 0 (utf8EncodeUnits P)))).all (· < 256) = true := by
    rw [List.all_eq_true]
    intro c hc
    simp only [decide_eq_true_eq]
    rcases List.mem_append.mp hc with hc | hc
    · exact fallback_marker_bytes c hc
    · exact ht3 c hc
  simp only [fallbackEncrypt, fallbackFinalSalt, hen]
  rw [jsBtoa, if_pos hall]

/-- With no configured global salt, `fallbackDecrypt` inverts
`fallbackEncrypt` (the random suffixes play no role). -/
theorem fallbackDecrypt_fallbackEncrypt (suf1 suf2 P mk salt p : JStr)
    (hP : wfUnits P = true) (hmk : ∀ c ∈ mk, c < 256) (hsalt : ∀ c ∈ salt, c < 256)
    (henc : fallbackEncrypt none suf1 P mk salt = some p) :
    fallbackDecrypt none suf2 p mk salt = some P := by
  rw [fallbackEncrypt_eq suf1 P mk salt hP hmk hsalt] at henc
  have hp := (Option.some.inj henc).symm
  subst hp
  have hkeyb := createEnhancedKey_lt_256 mk salt hmk hsalt
  have ht3 : ∀ c ∈ xorRound (createEnhancedKey mk salt) 2
      (xorRound (createEnhancedKey mk salt) 1
        (xorRound (createEnhancedKey mk salt) 0 (utf8EncodeUnits P))), c < 256 :=
    xorRound_lt_256 _ 2 _ hkeyb (by omega)
      (xorRound_lt_256 _ 1 _ hkeyb (by omega)
        (xorRound_lt_256 _ 0 _ hkeyb (by omega) (utf8Encode_bytes_lt_256 P hP)))
  have hmem : ∀ c ∈ CONFIG.FALLBACK_MARKER ++
      xorRound (createEnhancedKey mk salt) 2
        (xorRound (createEnhancedKey mk salt) 1
          (xorRound (createEnhancedKey mk salt) 0 (utf8EncodeUnits P))), c < 256 := by
    intro c hc
    rcases List.mem_append.mp hc with hc | hc
    · exact fallback_marker_bytes c hc
    · exact ht3 c hc
  have hatobp := jsAtob_b64encode _ hmem
  have hpre : CONFIG.FALLBACK_MARKER.isPrefixOf (CONFIG.FALLBACK_MARKER ++
      xorRound (createEnhancedKey mk salt) 2
        (xorRound (createEnhancedKey mk salt) 1
          (xorRound (createEnhancedKey mk salt) 0 (utf8EncodeUnits P)))) = true := by
    rw [List.isPrefixOf_iff_prefix]
    exact List.prefix_append _ _
  simp only [fallbackDecrypt, hatobp, hpre, if_true, fallbackFinalSalt]
  rw [List.drop_left' (rfl : (CONFIG.FALLBACK_MARKER).length = CONFIG.FALLBACK_MARKER.length)]
  rw [xorRound_three_cancel]
  have hall2 : (utf8EncodeUnits P).all (· < 256) = true := by
    rw [List.all_eq_true]
    intro c hc
    simp only [decide_eq_true_eq]
    exact utf8Encode_bytes_lt_256 P hP c hc
  rw [decodeURIComponentEscape, if_pos hall2]
  exact utf8DecodeStrict_encode P hP

end CryptoUtils

theorem encryptBlob_bytes (it : Option Nat) (randSalt8 randIV : Nat → Nat)
    (P mk salt : JStr) (hP : wfUnits P = true) :
    ∀ b ∈ CryptoUtils.encryptBlob none 16 it randSalt8 randIV P mk salt, b < 256 := by
  intro b hb
  rw [show CryptoUtils.encryptBlob none 16 it randSalt8 randIV P mk salt
      = getRandomValues randIV 12 ++
        encryptGCM (SecurityUtils.generateStrongKey it mk salt)
          (getRandomValues randIV 12) (utf8EncodeUnits P) from rfl] at hb
  rcases List.mem_append.mp hb with hb | hb
  · exact getRandomValues_bytes randIV 12 b hb
  · exact encryptGCM_bytes _ _ _ (utf8Encode_bytes_lt_256 P hP) b hb

/- ## The claims -/

/-- Round-trip in the default deployment: with no configured global salt
(`window.VALINE_CRYPTO_SALT` unset), decoding the result of encoding a
well-formed plaintext `P` under secret `mk` (and the per-deployment salt
string) with the same secret returns exactly `P`, in both payload
families: the primary AES-GCM family (`primaryThrows = false`) and the
fallback multi-round-XOR family (`primaryThrows = true`, which routes
`encrypt` through `fallbackEncrypt`).  The secret and salt are Latin-1
(code units below 256) so that the fallback family's `btoa` cannot
throw, and the primary payload is assumed not to collide with the
fallback marker (`hnf`), which the decoder checks first.  This is the
scope on which C1 holds; see `claim_C1_failing_eval` for the
configuration in which the code breaks it. -/
theorem roundtrip_default_config (P mk salt suf1 suf2 suf3 : JStr) (it : Option Nat)
    (randSalt8 randIV : Nat → Nat)
    (hP : wfUnits P = true)
    (hmk : ∀ c ∈ mk, c < 256) (hsalt : ∀ c ∈ salt, c < 256)
    (hnf : CONFIG.FALLBACK_MARKER.isPrefixOf
      (CryptoUtils.encryptBlob none 16 it randSalt8 randIV P mk salt) = false) :
    (CryptoUtils.encrypt none 16 it randSalt8 randIV suf1 false P mk salt).bind
        (fun e => CryptoUtils.decrypt none it suf2 e mk salt) = some P
    ∧ (CryptoUtils.encrypt none 16 it randSalt8 randIV suf1 true P mk salt).bind
        (fun e => CryptoUtils.decrypt none it suf3 e mk salt) = some P := by
  constructor
  · have henc : CryptoUtils.encrypt none 16 it randSalt8 randIV suf1 false P mk salt
        = some (SecurityUtils.arrayBufferToBase64
            (CryptoUtils.encryptBlob none 16 it randSalt8 randIV P mk salt)) := by
      rw [CryptoUtils.encrypt, if_neg (by simp : ¬ false = true)]
    rw [henc, Option.some_bind]
    exact CryptoUtils.decrypt_eq_primary none it suf2 _ mk salt _ P
      (jsAtob_b64encode _ (encryptBlob_bytes it randSalt8 randIV P mk salt hP))
      hnf
      (CryptoUtils.decryptPrimary_encryptBlob it randSalt8 randIV P mk salt hP)
  · have henc : CryptoUtils.encrypt none 16 it randSalt8 randIV suf1 true P mk salt
        = CryptoUtils.fallbackEncrypt none suf1 P mk salt := by
      rw [CryptoUtils.encrypt, if_pos rfl]
      rfl
    rw [henc, CryptoUtils.fallbackEncrypt_eq suf1 P mk salt hP hmk hsalt, Option.some_bind]
    have hkeyb := CryptoUtils.createEnhancedKey_lt_256 mk salt hmk hsalt
    have hmem : ∀ c ∈ CONFIG.FALLBACK_MARKER ++
        CryptoUtils.xorRound (CryptoUtils.createEnhancedKey mk salt) 2
          (CryptoUtils.xorRound (CryptoUtils.createEnhancedKey mk salt) 1
            (CryptoUtils.xorRound (CryptoUtils.createEnhancedKey mk salt) 0
              (utf8EncodeUnits P))), c < 256 := by
      intro c hc
      rcases List.mem_append.mp hc with hc | hc
      · exact fallback_marker_bytes c hc
      · exact CryptoUtils.xorRound_lt_256 _ 2 _ hkeyb (by omega)
          (CryptoUtils.xorRound_lt_256 _ 1 _ hkeyb (by omega)
            (CryptoUtils.xorRound_lt_256 _ 0 _ hkeyb (by omega)
              (utf8Encode_bytes_lt_256 P hP))) c hc
    rw [CryptoUtils.decrypt_eq_fallback_of_marker none it suf3 _ mk salt _
      (jsAtob_b64encode _ hmem)
      (by rw [List.isPrefixOf_iff_prefix]; exact List.prefix_append _ _)]
    exact CryptoUtils.fallbackDecrypt_fallbackEncrypt suf1 suf3 P mk salt _ hP hmk hsalt
      (CryptoUtils.fallbackEncrypt_eq suf1 P mk salt hP hmk hsalt)

/-- Concrete check of the default-configuration round trip at
`P = "hi"`, `mk = "k"`, `salt = "s"`. -/
theorem roundtrip_default_config_check :
    (wfUnits [104, 105] = true
      ∧ (∀ c ∈ [107], c < 256) ∧ (∀ c ∈ [115], c < 256)
      ∧ CONFIG.FALLBACK_MARKER.isPrefixOf
          (CryptoUtils.encryptBlob none 16 none (fun _ => 0) (fun i => i * 7 + 3)
            [104, 105] [107] [115]) = false)
    ∧ ((CryptoUtils.encrypt none 16 none (fun _ => 0) (fun i => i * 7 + 3) [] false
          [104, 105] [107] [115]).bind
        (fun e => CryptoUtils.decrypt none none [] e [107] [115]) = some [104, 105]
      ∧ (CryptoUtils.encrypt none 16 none (fun _ => 0) (fun i => i * 7 + 3) [] true
          [104, 105] [107] [115]).bind
        (fun e => CryptoUtils.decrypt none none [] e [107] [115]) = some [104, 105]) :=
  ⟨⟨by decide, by decide, by decide, by decide⟩,
    roundtrip_default_config [104, 105] [107] [115] [] [] [] none (fun _ => 0) (fun i => i * 7 + 3)
      (by decide) (by decide) (by decide) (by decide)⟩

/-- **C1** - the round-trip claim is the spec's (and the code's own
commented) intent, but the code breaks it whenever the documented global
salt `window.VALINE_CRYPTO_SALT` is configured: `encrypt` derives its key
from `base64(configSalt XOR fresh-random-8) ++ salt` (lines 527-539)
without storing the random component anywhere, while `decrypt` rebuilds
`base64(configSalt) ++ salt` (line 626) - its own comment says it
extracts and uses "the random part", yet the extracted `randomSalt` of
line 623 is never used - so the keys differ and decryption of a
just-encrypted comment fails.  Concretely (secret "alpha", salt "s0",
global salt "cfg"): for the primary family, encode-then-decode of the
empty plaintext returns `null` instead of the plaintext; for the
fallback family (fresh random suffixes "aa" on encode, "bb" on decode),
encode-then-decode of "hi" returns the garbage string "dO". -/
theorem claim_C1_failing_eval :
    (CryptoUtils.encrypt (some [99, 102, 103]) 16 none (fun _ => 5) (fun i => i) [97, 97] false
        [] [97, 108, 112, 104, 97] [115, 48]).bind
      (fun e => CryptoUtils.decrypt (some [99, 102, 103]) none [98, 98] e
        [97, 108, 112, 104, 97] [115, 48]) = none
    ∧ (CryptoUtils.encrypt (some [99, 102, 103]) 16 none (fun _ => 5) (fun i => i) [97, 97] true
        [104, 105] [97, 108, 112, 104, 97] [115, 48]).bind
      (fun e => CryptoUtils.decrypt (some [99, 102, 103]) none [98, 98] e
        [97, 108, 112, 104, 97] [115, 48]) = some [100, 79]
    ∧ (some [100, 79] : Option JStr) ≠ some [104, 105]
    ∧ (none : Option JStr) ≠ some ([] : JStr) := by
  refine ⟨by decide, by decide, by decide, by decide⟩

/-- Does `pat` occur as a contiguous subsequence of `s`? -/
def containsSeq (pat s : List Nat) : Bool :=
  (List.range (s.length + 1)).any (fun i => pat.isPrefixOf (s.drop i))

/-- **C2, counterexample** - decoding a primary-family payload with a wrong
secret does not return a single `AuthenticationFailed` error kind: here
`encrypt` under secret "alpha" produces a payload whose primary decrypt
branch rejects under secret "beta" (`decryptPrimary = none`, the modelled
AES-GCM tag failure), yet `decrypt` returns `some` of a 28-character
garbage string - a plaintext-looking value, neither an error nor the
original (empty) plaintext.  The entropy source is the fixed IV written
below. -/
theorem claim_C2_counterexample :
    CryptoUtils.encrypt none 16 none (fun _ => 0)
        (fun i => [72, 98, 110, 50, 63, 105, 38, 33, 111, 47, 39, 125].getD i 0) [] false
        [] [97, 108, 112, 104, 97] [115, 48]
      = some [83, 71, 74, 117, 77, 106, 57, 112, 74, 105, 70, 118, 76, 121, 100, 57, 75, 86,
              81, 102, 74, 50, 78, 68, 102, 119, 103, 104, 78, 51, 70, 84, 77, 103, 56, 81,
              81, 119, 61, 61]
    ∧ CryptoUtils.decryptPrimary none none
        [83, 71, 74, 117, 77, 106, 57, 112, 74, 105, 70, 118, 76, 121, 100, 57, 75, 86,
         81, 102, 74, 50, 78, 68, 102, 119, 103, 104, 78, 51, 70, 84, 77, 103, 56, 81,
         81, 119, 61, 61] [98, 101, 116, 97] [115, 48] = none
    ∧ CryptoUtils.decrypt none none []
        [83, 71, 74, 117, 77, 106, 57, 112, 74, 105, 70, 118, 76, 121, 100, 57, 75, 86,
         81, 102, 74, 50, 78, 68, 102, 119, 103, 104, 78, 51, 70, 84, 77, 103, 56, 81,
         81, 119, 61, 61] [98, 101, 116, 97] [115, 48]
      = some [46, 94, 20, 65, 65, 65, 65, 65, 65, 65, 65, 65, 83, 39, 97, 15, 4, 35, 81,
              102, 71, 11, 11, 32, 76, 39, 119, 35]
    ∧ ([97, 108, 112, 104, 97] : JStr) ≠ [98, 101, 116, 97]
    ∧ ([46, 94, 20, 65, 65, 65, 65, 65, 65, 65, 65, 65, 83, 39, 97, 15, 4, 35, 81,
        102, 71, 11, 11, 32, 76, 39, 119, 35] : JStr) ≠ [] := by
  refine ⟨by decide, by decide, by decide, by decide, by decide⟩

/-- **C2, amended** - when the primary decrypt branch of a
non-fallback-marked payload fails (wrong key, corrupted data, or any other
exception), `decrypt` does not report a dedicated `AuthenticationFailed`
error: it silently re-decodes the payload with the keyed-XOR fallback
decoder, whose result (a garbage string, or `null` when the XOR output is
not decodable text) is returned instead. -/
theorem claim_C2_amended (cfg : Option JStr) (it : Option Nat) (suf E mk salt d : JStr)
    (h1 : jsAtob E = some d)
    (h2 : CONFIG.FALLBACK_MARKER.isPrefixOf d = false)
    (h3 : CryptoUtils.decryptPrimary cfg it E mk salt = none) :
    CryptoUtils.decrypt cfg it suf E mk salt
      = CryptoUtils.fallbackDecrypt cfg suf E mk salt :=
  CryptoUtils.decrypt_eq_fallback_of_primary_fail cfg it suf E mk salt d h1 h2 h3

/-- Witness for the amended C2 at a concrete 3-byte payload (too short for
an authentication tag, so the primary branch fails). -/
theorem claim_C2_amended_witness :
    (jsAtob [65, 81, 73, 68] = some [1, 2, 3]
      ∧ CONFIG.FALLBACK_MARKER.isPrefixOf [1, 2, 3] = false
      ∧ CryptoUtils.decryptPrimary none none [65, 81, 73, 68] [107] [115] = none)
    ∧ CryptoUtils.decrypt none none [] [65, 81, 73, 68] [107] [115]
      = CryptoUtils.fallbackDecrypt none [] [65, 81, 73, 68] [107] [115] :=
  ⟨⟨by decide, by decide, by decide⟩,
    claim_C2_amended none none [] [65, 81, 73, 68] [107] [115] [1, 2, 3]
      (by decide) (by decide) (by decide)⟩

/-- **C3, counterexample** - an exception in the primary cipher path does
silently produce a fallback-family payload: with the primary path throwing
(`primaryThrows = true`, the catch branch of lines 568-571), `encrypt`
returns a payload whose base64-decoded bytes begin with `FALLBACK:` - the
fallback family - although nothing about the runtime made the primary
cipher structurally unavailable.  Cipher selection is on exception, not
on capability. -/
theorem claim_C3_counterexample :
    CryptoUtils.encrypt none 16 none (fun _ => 0) (fun _ => 0) [97, 97] true
        [104, 105] [107] [115]
      = some [82, 107, 70, 77, 84, 69, 74, 66, 81, 48, 115, 54, 71, 66, 107, 61]
    ∧ jsAtob [82, 107, 70, 77, 84, 69, 74, 66, 81, 48, 115, 54, 71, 66, 107, 61]
      = some [70, 65, 76, 76, 66, 65, 67, 75, 58, 24, 25]
    ∧ CONFIG.FALLBACK_MARKER.isPrefixOf [70, 65, 76, 76, 66, 65, 67, 75, 58, 24, 25]
      = true := by
  refine ⟨by decide, by decide, by decide⟩

/-- **C3, amended** - whenever any exception occurs in the primary path of
`encrypt` (for whatever reason - the code cannot distinguish structural
unavailability from an input-specific throw), the call silently returns a
fallback-family payload: one whose base64-decoded form starts with the
fallback marker. -/
theorem claim_C3_amended (cfg : Option JStr) (saltLength : Nat) (it : Option Nat)
    (randSalt8 randIV : Nat → Nat) (suf text mk salt p : JStr)
    (h : CryptoUtils.encrypt cfg saltLength it randSalt8 randIV suf true text mk salt
      = some p) :
    ∃ d, jsAtob p = some d ∧ CONFIG.FALLBACK_MARKER.isPrefixOf d = true := by
  rw [CryptoUtils.encrypt, if_pos rfl] at h
  cases hE : encodeURIComponentUnescape text with
  | none =>
      simp only [CryptoUtils.fallbackEncrypt, hE] at h
      cases h
  | some t0 =>
      simp only [CryptoUtils.fallbackEncrypt, hE, jsBtoa] at h
      split at h
      · rename_i hall
        have hp := (Option.some.inj h).symm
        subst hp
        have hbytes : ∀ c ∈ CONFIG.FALLBACK_MARKER ++
            CryptoUtils.xorRound (CryptoUtils.createEnhancedKey mk
                (CryptoUtils.fallbackFinalSalt cfg suf
                  (CryptoUtils.encSalt cfg saltLength randSalt8 salt))) 2
              (CryptoUtils.xorRound (CryptoUtils.createEnhancedKey mk
                  (CryptoUtils.fallbackFinalSalt cfg suf
                    (CryptoUtils.encSalt cfg saltLength randSalt8 salt))) 1
                (CryptoUtils.xorRound (CryptoUtils.createEnhancedKey mk
                    (CryptoUtils.fallbackFinalSalt cfg suf
                      (CryptoUtils.encSalt cfg saltLength randSalt8 salt))) 0 t0)),
            c < 256 := by
          intro c hc
          have := List.all_eq_true.mp hall c hc
          simpa using this
        exact ⟨_, jsAtob_b64encode _ hbytes,
          by rw [List.isPrefixOf_iff_prefix]; exact List.prefix_append _ _⟩
      · cases h

/-- Witness for the amended C3 at the concrete inputs of the C3
counterexample. -/
theorem claim_C3_amended_witness :
    (CryptoUtils.encrypt none 16 none (fun _ => 0) (fun _ => 0) [97, 97] true
        [104, 105] [107] [115]
      = some [82, 107, 70, 77, 84, 69, 74, 66, 81, 48, 115, 54, 71, 66, 107, 61])
    ∧ ∃ d, jsAtob [82, 107, 70, 77, 84, 69, 74, 66, 81, 48, 115, 54, 71, 66, 107, 61]
        = some d ∧ CONFIG.FALLBACK_MARKER.isPrefixOf d = true :=
  ⟨by decide,
    claim_C3_amended none 16 none (fun _ => 0) (fun _ => 0) [97, 97] [104, 105] [107] [115]
      [82, 107, 70, 77, 84, 69, 74, 66, 81, 48, 115, 54, 71, 66, 107, 61] (by decide)⟩

/-- **C4, counterexample** - the primary payload is not
`MARKER || base64(VERSION || SALT_LEN || SALT || NONCE || CT_TAG)` and is
not self-contained: encoding the empty plaintext under salt
"0123456789abcdef" yields a payload whose base64 body decodes to exactly
28 bytes (12-byte nonce plus 16-byte tag) - too short for any layout that
embeds a version byte, a salt length and the 16-byte salt - and the
salt's bytes occur nowhere in it, so the salt used for key derivation
cannot be parsed back out of the payload. -/
theorem claim_C4_counterexample :
    CryptoUtils.encrypt none 16 none (fun _ => 0) (fun i => i * 7 + 3) [] false []
        [107] [48, 49, 50, 51, 52, 53, 54, 55, 56, 57, 97, 98, 99, 100, 101, 102]
      = some [65, 119, 111, 82, 71, 66, 56, 109, 76, 84, 81, 55, 81, 107, 108, 81, 122, 88,
              115, 111, 118, 120, 81, 73, 88, 81, 100, 118, 112, 101, 89, 121, 105, 107, 85,
              119, 100, 103, 61, 61]
    ∧ jsAtob [65, 119, 111, 82, 71, 66, 56, 109, 76, 84, 81, 55, 81, 107, 108, 81, 122, 88,
              115, 111, 118, 120, 81, 73, 88, 81, 100, 118, 112, 101, 89, 121, 105, 107, 85,
              119, 100, 103, 61, 61]
      = some [3, 10, 17, 24, 31, 38, 45, 52, 59, 66, 73, 80, 205, 123, 40, 191, 20, 8, 93,
              7, 111, 165, 230, 50, 138, 69, 48, 118]
    ∧ ([3, 10, 17, 24, 31, 38, 45, 52, 59, 66, 73, 80, 205, 123, 40, 191, 20, 8, 93,
        7, 111, 165, 230, 50, 138, 69, 48, 118] : List Nat).length = 28
    ∧ containsSeq
        (utf8EncodeUnits [48, 49, 50, 51, 52, 53, 54, 55, 56, 57, 97, 98, 99, 100, 101, 102])
        [3, 10, 17, 24, 31, 38, 45, 52, 59, 66, 73, 80, 205, 123, 40, 191, 20, 8, 93,
         7, 111, 165, 230, 50, 138, 69, 48, 118] = false := by
  refine ⟨by decide, by decide, by decide, by decide⟩

/-- **C4, amended** - the actual layout of a primary-family payload at
submit time (line 1260) is `ENCRYPTION_MARKER || base64(NONCE ||
CIPHERTEXT_AND_TAG)`: the base64 body decodes back to the nonce followed
by the cipher output (so nonce and ciphertext are parseable), but no
version byte, salt length or salt is embedded - the salt lives in
external state (`localStorage`), so the payload alone does not determine
the derivation parameters. -/
theorem claim_C4_amended (it : Option Nat) (randSalt8 randIV : Nat → Nat)
    (P mk salt : JStr) (hP : wfUnits P = true) :
    ValineCrypto.submitPayload (SecurityUtils.arrayBufferToBase64
        (CryptoUtils.encryptBlob none 16 it randSalt8 randIV P mk salt))
      = CONFIG.ENCRYPTION_MARKER ++
        b64encode (CryptoUtils.encryptBlob none 16 it randSalt8 randIV P mk salt)
    ∧ jsAtob (b64encode (CryptoUtils.encryptBlob none 16 it randSalt8 randIV P mk salt))
      = some (CryptoUtils.encryptBlob none 16 it randSalt8 randIV P mk salt)
    ∧ CryptoUtils.encryptBlob none 16 it randSalt8 randIV P mk salt
      = getRandomValues randIV 12 ++
        encryptGCM (SecurityUtils.generateStrongKey it mk salt)
          (getRandomValues randIV 12) (utf8EncodeUnits P) := by
  refine ⟨rfl, ?_, rfl⟩
  exact jsAtob_b64encode _ (encryptBlob_bytes it randSalt8 randIV P mk salt hP)

/-- Witness for the amended C4 at `P = "hi"`, `mk = "k"`, `salt = "s"`. -/
theorem claim_C4_amended_witness :
    (wfUnits [104, 105] = true)
    ∧ (ValineCrypto.submitPayload (SecurityUtils.arrayBufferToBase64
          (CryptoUtils.encryptBlob none 16 none (fun _ => 0) (fun _ => 0) [104, 105] [107] [115]))
        = CONFIG.ENCRYPTION_MARKER ++
          b64encode (CryptoUtils.encryptBlob none 16 none (fun _ => 0) (fun _ => 0)
            [104, 105] [107] [115])
      ∧ jsAtob (b64encode (CryptoUtils.encryptBlob none 16 none (fun _ => 0) (fun _ => 0)
            [104, 105] [107] [115]))
        = some (CryptoUtils.encryptBlob none 16 none (fun _ => 0) (fun _ => 0)
            [104, 105] [107] [115])
      ∧ CryptoUtils.encryptBlob none 16 none (fun _ => 0) (fun _ => 0) [104, 105] [107] [115]
        = getRandomValues (fun _ => 0) 12 ++
          encryptGCM (SecurityUtils.generateStrongKey none [107] [115])
            (getRandomValues (fun _ => 0) 12) (utf8EncodeUnits [104, 105])) :=
  ⟨by decide,
    claim_C4_amended none (fun _ => 0) (fun _ => 0) [104, 105] [107] [115] (by decide)⟩

/-- **C5, counterexample** - decode is not deterministic when a global
salt (`window.VALINE_CRYPTO_SALT`) is configured: decoding the same
fallback-family payload with the same secret twice yields two different
strings, because `fallbackDecrypt` mixes a fresh `Math.random()` suffix
into its key (line 664).  Here the payload is `btoa('FALLBACK:x')`, the
secret is "k", and the two runs draw suffixes "aa" and "bb". -/
theorem claim_C5_counterexample :
    CryptoUtils.decrypt (some [99, 102, 103]) none [97, 97]
        [82, 107, 70, 77, 84, 69, 74, 66, 81, 48, 115, 54, 101, 65, 61, 61] [107] [115]
      = some [46]
    ∧ CryptoUtils.decrypt (some [99, 102, 103]) none [98, 98]
        [82, 107, 70, 77, 84, 69, 74, 66, 81, 48, 115, 54, 101, 65, 61, 61] [107] [115]
      = some [45]
    ∧ ([97, 97] : JStr) ≠ [98, 98]
    ∧ (some [46] : Option JStr) ≠ some [45] := by
  refine ⟨by decide, by decide, by decide, by decide⟩

/-- **C5, amended** - decode is deterministic in the default deployment
(no configured global salt): the result of `decrypt` is independent of
the `Math.random()` draw, so two decode calls on the same
(payload, secret, salt) triple agree; and as a pure function it never
mutates its input.  With `VALINE_CRYPTO_SALT` configured the fallback
decode path is randomized (see the counterexample). -/
theorem claim_C5_amended (it : Option Nat) (suf1 suf2 E mk salt : JStr) :
    CryptoUtils.decrypt none it suf1 E mk salt = CryptoUtils.decrypt none it suf2 E mk salt := rfl

/-- Witness for the amended C5 at distinct concrete random suffixes. -/
theorem claim_C5_amended_witness :
    CryptoUtils.decrypt none none [97, 97] [65, 81, 73, 68] [107] [115]
      = CryptoUtils.decrypt none none [98, 98] [65, 81, 73, 68] [107] [115] :=
  claim_C5_amended none [97, 97] [98, 98] [65, 81, 73, 68] [107] [115]

/-- **C6, counterexample** - encode is not non-deterministic in every
cipher family: with no configured global salt, the fallback family is a
deterministic function of (plaintext, secret, salt) - two encode calls
through the fallback path with different random draws produce the
identical payload string, so equal fallback ciphertexts do reveal
equality of plaintexts. -/
theorem claim_C6_counterexample :
    CryptoUtils.encrypt none 16 none (fun _ => 0) (fun _ => 0) [97, 97] true
        [104, 105] [107] [115]
      = CryptoUtils.encrypt none 16 none (fun _ => 0) (fun _ => 0) [98, 98] true
        [104, 105] [107] [115]
    ∧ CryptoUtils.encrypt none 16 none (fun _ => 0) (fun _ => 0) [97, 97] true
        [104, 105] [107] [115]
      = some [82, 107, 70, 77, 84, 69, 74, 66, 81, 48, 115, 54, 71, 66, 107, 61]
    ∧ ([97, 97] : JStr) ≠ [98, 98] := by
  refine ⟨by decide, by decide, by decide⟩

/-- **C6, amended** - primary-family encode is non-deterministic: whenever
the two calls draw different 12-byte IVs, the payload strings differ (the
IV is a prefix of the base64 body, and base64 is injective on byte
lists).  The fallback family is deterministic unless a global salt is
configured. -/
theorem claim_C6_amended (it : Option Nat) (randSalt8 randIV1 randIV2 : Nat → Nat)
    (suf P mk salt : JStr) (hP : wfUnits P = true)
    (hiv : getRandomValues randIV1 12 ≠ getRandomValues randIV2 12) :
    CryptoUtils.encrypt none 16 it randSalt8 randIV1 suf false P mk salt
      ≠ CryptoUtils.encrypt none 16 it randSalt8 randIV2 suf false P mk salt := by
  intro heq
  rw [CryptoUtils.encrypt, if_neg (by simp : ¬ false = true),
    CryptoUtils.encrypt, if_neg (by simp : ¬ false = true)] at heq
  have heq2 := Option.some.inj heq
  have h1 := jsAtob_b64encode _ (encryptBlob_bytes it randSalt8 randIV1 P mk salt hP)
  have h2 := jsAtob_b64encode _ (encryptBlob_bytes it randSalt8 randIV2 P mk salt hP)
  rw [show SecurityUtils.arrayBufferToBase64
      (CryptoUtils.encryptBlob none 16 it randSalt8 randIV1 P mk salt)
      = b64encode (CryptoUtils.encryptBlob none 16 it randSalt8 randIV1 P mk salt) from rfl,
    show SecurityUtils.arrayBufferToBase64
      (CryptoUtils.encryptBlob none 16 it randSalt8 randIV2 P mk salt)
      = b64encode (CryptoUtils.encryptBlob none 16 it randSalt8 randIV2 P mk salt) from rfl]
    at heq2
  rw [heq2] at h1
  rw [h2] at h1
  have hblob := Option.some.inj h1
  apply hiv
  have ht1 : (CryptoUtils.encryptBlob none 16 it randSalt8 randIV1 P mk salt).take 12
      = getRandomValues randIV1 12 := by
    rw [show CryptoUtils.encryptBlob none 16 it randSalt8 randIV1 P mk salt
        = getRandomValues randIV1 12 ++
          encryptGCM (SecurityUtils.generateStrongKey it mk salt)
            (getRandomValues randIV1 12) (utf8EncodeUnits P) from rfl]
    exact List.take_left' (getRandomValues_length randIV1 12)
  have ht2 : (CryptoUtils.encryptBlob none 16 it randSalt8 randIV2 P mk salt).take 12
      = getRandomValues randIV2 12 := by
    rw [show CryptoUtils.encryptBlob none 16 it randSalt8 randIV2 P mk salt
        = getRandomValues randIV2 12 ++
          encryptGCM (SecurityUtils.generateStrongKey it mk salt)
            (getRandomValues randIV2 12) (utf8EncodeUnits P) from rfl]
    exact List.take_left' (getRandomValues_length randIV2 12)
  rw [← ht1, ← ht2, hblob]

/-- Witness for the amended C6 at entropy sources drawing all-zero and
all-one IVs. -/
theorem claim_C6_amended_witness :
    (wfUnits [104, 105] = true
      ∧ getRandomValues (fun _ => 0) 12 ≠ getRandomValues (fun _ => 1) 12)
    ∧ CryptoUtils.encrypt none 16 none (fun _ => 0) (fun _ => 0) [] false [104, 105] [107] [115]
      ≠ CryptoUtils.encrypt none 16 none (fun _ => 0) (fun _ => 1) [] false [104, 105] [107] [115] :=
  ⟨⟨by decide, by decide⟩,
    claim_C6_amended none (fun _ => 0) (fun _ => 0) (fun _ => 1) [] [104, 105] [107] [115]
      (by decide) (by decide)⟩

/-- **C7** - classification: a rendered comment whose text does not start
with the marker `'[🔒ENCRYPTED]'` is left untouched as ordinary plaintext
(`notEncoded`), not treated as a corrupt payload or an error
(`processComments` lines 1292-1299). -/
theorem claim_C7_notEncoded (text : JStr)
    (h : CONFIG.ENCRYPTION_MARKER.isPrefixOf text = false) :
    ValineCrypto.classifyComment text = ValineCrypto.MarkerClass.notEncoded := by
  rw [ValineCrypto.classifyComment, h]
  rfl

/-- Witness for C7 at the plain text "hi". -/
theorem claim_C7_notEncoded_witness :
    CONFIG.ENCRYPTION_MARKER.isPrefixOf [104, 105] = false
    ∧ ValineCrypto.classifyComment [104, 105] = ValineCrypto.MarkerClass.notEncoded :=
  ⟨by decide, claim_C7_notEncoded [104, 105] (by decide)⟩

/-- **C8, counterexample** - key derivation never fails: there is no
`InvalidSecret` check (an empty secret derives a 32-byte key) and no
`UnsupportedIterationCount` check (a configured iteration count of 0 also
derives a 32-byte key); both `generateStrongKey` and the first IIFE's
`deriveKey` are total functions with no validation or error kind of any
sort. -/
theorem claim_C8_counterexample :
    (SecurityUtils.generateStrongKey none [] [115]).length = 32
    ∧ (SecurityUtils.generateStrongKey (some 0) [107] [115]).length = 32
    ∧ (deriveKey [] [115]).length = 32 := by
  refine ⟨by decide, by decide, by decide⟩

/-- **C8, amended** - key derivation performs no validation at all: for
every secret (including the empty one) and every configured iteration
count (defaulted to 100000) it deterministically returns a 32-byte key;
there is no `InvalidSecret` and no `UnsupportedIterationCount` error
anywhere in the code.  Determinism is structural: both derivation
functions are pure functions of (secret, salt, iteration count). -/
theorem claim_C8_amended (it : Option Nat) (pw salt : JStr) :
    (SecurityUtils.generateStrongKey it pw salt).length = 32
    ∧ (deriveKey pw salt).length = 32 := by
  constructor
  · exact pbkdf2Model_length _ _ _
  · exact pbkdf2Model_length _ _ _

/-- **C9** - on every primary-path call (no configured global salt),
`encrypt` draws a fresh 12-byte nonce from the entropy source
(`CONFIG.IV_LENGTH = 12`, line 553), embeds it as the first 12 bytes of
the payload body, and the interface offers no way for a caller to supply
a nonce: the IV is a function of the entropy source alone - `encrypt`'s
JS signature is `(text, masterKey, salt)`. -/
theorem claim_C9_nonce (it : Option Nat) (randSalt8 randIV : Nat → Nat)
    (suf P mk salt : JStr) (hP : wfUnits P = true) :
    CryptoUtils.encrypt none 16 it randSalt8 randIV suf false P mk salt
      = some (SecurityUtils.arrayBufferToBase64
          (CryptoUtils.encryptBlob none 16 it randSalt8 randIV P mk salt))
    ∧ jsAtob (SecurityUtils.arrayBufferToBase64
        (CryptoUtils.encryptBlob none 16 it randSalt8 randIV P mk salt))
      = some (CryptoUtils.encryptBlob none 16 it randSalt8 randIV P mk salt)
    ∧ (CryptoUtils.encryptBlob none 16 it randSalt8 randIV P mk salt).take 12
      = getRandomValues randIV CONFIG.IV_LENGTH
    ∧ (getRandomValues randIV CONFIG.IV_LENGTH).length = 12
    ∧ (∀ b ∈ getRandomValues randIV CONFIG.IV_LENGTH, b < 256) := by
  refine ⟨?_, ?_, ?_, ?_, ?_⟩
  · rw [CryptoUtils.encrypt, if_neg (by simp : ¬ false = true)]
  · exact jsAtob_b64encode _ (encryptBlob_bytes it randSalt8 randIV P mk salt hP)
  · rw [show CryptoUtils.encryptBlob none 16 it randSalt8 randIV P mk salt
        = getRandomValues randIV 12 ++
          encryptGCM (SecurityUtils.generateStrongKey it mk salt)
            (getRandomValues randIV 12) (utf8EncodeUnits P) from rfl]
    exact List.take_left' (getRandomValues_length randIV 12)
  · exact getRandomValues_length randIV CONFIG.IV_LENGTH
  · exact getRandomValues_bytes randIV CONFIG.IV_LENGTH

/-- Witness for C9 at `P = "hi"` with the identity-style entropy source. -/
theorem claim_C9_nonce_witness :
    (wfUnits [104, 105] = true)
    ∧ (CryptoUtils.encrypt none 16 none (fun _ => 0) (fun i => i * 7 + 3) [] false
          [104, 105] [107] [115]
        = some (SecurityUtils.arrayBufferToBase64
            (CryptoUtils.encryptBlob none 16 none (fun _ => 0) (fun i => i * 7 + 3)
              [104, 105] [107] [115]))
      ∧ jsAtob (SecurityUtils.arrayBufferToBase64
          (CryptoUtils.encryptBlob none 16 none (fun _ => 0) (fun i => i * 7 + 3)
            [104, 105] [107] [115]))
        = some (CryptoUtils.encryptBlob none 16 none (fun _ => 0) (fun i => i * 7 + 3)
            [104, 105] [107] [115])
      ∧ (CryptoUtils.encryptBlob none 16 none (fun _ => 0) (fun i => i * 7 + 3)
          [104, 105] [107] [115]).take 12
        = getRandomValues (fun i => i * 7 + 3) CONFIG.IV_LENGTH
      ∧ (getRandomValues (fun i => i * 7 + 3) CONFIG.IV_LENGTH).length = 12
      ∧ (∀ b ∈ getRandomValues (fun i => i * 7 + 3) CONFIG.IV_LENGTH, b < 256)) :=
  ⟨by decide,
    claim_C9_nonce none (fun _ => 0) (fun i => i * 7 + 3) [] [104, 105] [107] [115] (by decide)⟩

theorem b64encode_ne_nil (l : List Nat) (h : l ≠ []) : b64encode l ≠ [] := by
  match l with
  | [] => exact absurd rfl h
  | [a] => simp [b64encode]
  | [a, b] => simp [b64encode]
  | a :: b :: c :: rest => simp [b64encode]

/-- **C10, counterexample** - the secret-persistence round-trip fails at
the empty key, which the claim's "every key string over Latin-1
characters" includes: `saveKey('', true)` stores `btoa('') = ''`, and
`getKey`'s falsy guard (line 723, `if (!obfuscated) return null`) treats
the stored empty string as an absent slot, so `getKey()` returns `null`
rather than `''`. -/
theorem claim_C10_counterexample :
    StorageManager.saveKey none [] true = some []
    ∧ StorageManager.getKey (StorageManager.saveKey none [] true) = none
    ∧ (none : Option JStr) ≠ some ([] : JStr) := by
  refine ⟨by decide, by decide, by decide⟩

/-- **C10, amended** - secret-persistence round-trip for nonempty keys:
for every nonempty Latin-1 key string `k`, `getKey` after
`saveKey(k, true)` returns exactly `k` (the reverse-then-base64
obfuscation is inverted exactly by `atob`-then-reverse, and the stored
base64 of a nonempty string is nonempty, so the falsy guard does not
fire), and `saveKey(k, false)` clears the stored slot so a subsequent
`getKey` returns `null`.  The empty key is the exception shown in the
counterexample. -/
theorem claim_C10_storage (stored : Option JStr) (k : JStr) (hk : ∀ c ∈ k, c < 256)
    (hk0 : k ≠ []) :
    StorageManager.getKey (StorageManager.saveKey stored k true) = some k
    ∧ StorageManager.saveKey stored k false = none
    ∧ StorageManager.getKey (StorageManager.saveKey stored k false) = none := by
  have hkr : ∀ c ∈ k.reverse, c < 256 := fun c hc => hk c (List.mem_reverse.mp hc)
  have hkr0 : k.reverse ≠ [] := by
    intro hcon
    exact hk0 (List.reverse_eq_nil_iff.mp hcon)
  have hbtoa : jsBtoa k.reverse = some (b64encode k.reverse) := by
    rw [jsBtoa, if_pos (by rw [List.all_eq_true]; intro c hc; simpa using hkr c hc)]
  refine ⟨?_, rfl, rfl⟩
  rw [StorageManager.saveKey]
  rw [if_neg (by simp : ¬ (!true) = true)]
  rw [hbtoa]
  rw [StorageManager.getKey]
  show (if b64encode k.reverse = [] then none
    else match jsAtob (b64encode k.reverse) with
      | some s => some s.reverse
      | none => none) = some k
  rw [if_neg (b64encode_ne_nil k.reverse hkr0)]
  rw [jsAtob_b64encode _ hkr]
  show some k.reverse.reverse = some k
  rw [List.reverse_reverse]

/-- Witness for the amended C10 at `k = "key" ++ char 233` and an
occupied slot. -/
theorem claim_C10_storage_witness :
    ((∀ c ∈ [107, 101, 121, 233], c < 256) ∧ ([107, 101, 121, 233] : JStr) ≠ [])
    ∧ (StorageManager.getKey (StorageManager.saveKey (some [65]) [107, 101, 121, 233] true)
        = some [107, 101, 121, 233]
      ∧ StorageManager.saveKey (some [65]) [107, 101, 121, 233] false = none
      ∧ StorageManager.getKey (StorageManager.saveKey (some [65]) [107, 101, 121, 233] false)
        = none) :=
  ⟨⟨by decide, by decide⟩,
    claim_C10_storage (some [65]) [107, 101, 121, 233] (by decide) (by decide)⟩
